import Mathlib

/-!
Verification of the HTTP transport / URL parsing / weather field-extraction
core of xweathericon.

The development shallowly embeds the C sources:
  * http.c / http.h : url_parse, http_req_read, http_req_skip_header,
    http_req_byte_peek, http_req_byte_read, http_req_chunk_peek,
    http_req_chunk_read (the non-TLS variant; the TLS variant only wraps the
    same logic around tls_read).
  * weathericon.c : fetch_weather's JSON-token state machine and
    weather-code-to-icon mapping.

Bytes are modelled as Nat values 0..255, C strings as lists of bytes.
Machine integers (ssize_t / size_t) are modelled as Int / Nat with the
conversions between them made explicit exactly where the C performs them.
Network input is modelled as a list of read events consumed by the
select/read pair inside http_req_read.
-/

set_option maxRecDepth 10000

/-- Bytes of a Lean string literal, used to transcribe C string literals. -/
def strBytes (s : String) : List Nat := s.toList.map Char.toNat

/-- `(size_t)` conversion of a signed 64-bit value. -/
def sizeT (i : Int) : Nat := (i % (2 ^ 64)).toNat

/-- Wrap-around of an integer into the signed 64-bit range (ssize_t). -/
def wrap64 (i : Int) : Int := (i + 2 ^ 63) % 2 ^ 64 - 2 ^ 63

/-!
## Transport layer state

`struct http_request` (http.h lines 36-47), restricted to the fields the
transport routines touch.  `chunk` holds the valid bytes of the 2048-byte
buffer: the bytes at offsets `0 .. chunk.length-1` whose values are
determined by the reads performed so far.  Offsets beyond that hold stale
or indeterminate memory; any C execution path that would *read* such a
byte into an observable position is modelled as the distinguished
undefined-behaviour outcome below, never as a concrete value.
-/

structure Conn where
  socket : Int
  chunk : List Nat
  chunk_len : Int
  chunk_off : Int
deriving DecidableEq, Repr

/-- The connection as `http_get` returns it: `memset(req, 0, ...)` zeroes
`chunk_len` and `chunk_off`, and a successfully opened socket is a nonzero
descriptor (modelled as 1). -/
def freshConn : Conn := { socket := 1, chunk := [], chunk_len := 0, chunk_off := 0 }

/-- One interaction of the zero-timeout select / read pair with the peer:
either select reports nothing ready, or read delivers some bytes
(possibly zero of them, at end of stream), or read fails with -1.
(`select` returning -1 aborts the process via err(1) and is not modelled.) -/
inductive ReadEvent
  | noData
  | hardError
  | bytes (data : List Nat)
deriving DecidableEq, Repr

/-- `http_req_read` (http.c lines 282-332).  Returns the C return value,
the bytes written into the caller's buffer, the updated connection and the
remaining event stream.  A `bytes` event longer than `maxLen` is read only
up to `maxLen`; the remainder stays pending, as it would in the socket. -/
def http_req_read : Option Conn → Nat → List ReadEvent →
    Int × List Nat × Option Conn × List ReadEvent
  | none, _, evs => (-1, [], none, evs)
  | some req, maxLen, evs =>
    if req.socket = 0 then (-1, [], some req, evs)
    else
      match evs with
      | [] => (0, [], some req, [])
      | .noData :: rest => (0, [], some req, rest)
      | .hardError :: rest => (-1, [], some { req with socket := 0 }, rest)
      | .bytes d :: rest =>
          let delivered := d.take maxLen
          ((delivered.length : Int), delivered, some req,
           if d.length ≤ maxLen then rest else .bytes (d.drop maxLen) :: rest)

/-!
## http_req_skip_header (http.c lines 334-372)

The loop body is modelled as one step producing either another loop
iteration, a return, or undefined behaviour; the C `for (;;)` is then the
fuel-indexed iteration of that step.
-/

/-- The terminator `\r\n\r\n`. -/
def crlfcrlf : List Nat := [13, 10, 13, 10]

/-- Effect on the three retained bytes of
`memmove(chunk, chunk + chunk_len - 3, chunk_len - 3)` followed by
`chunk_len = 3` (http.c lines 345-347), for `b` the valid prefix of the
buffer with `3 < b.length`.  Position `i < 3` receives `b[len-3+i]` when
`i < len - 3` (it is inside the copied region) and keeps its old value
`b[i]` otherwise — so for `b.length` of 4 or 5 the retained bytes are NOT
the last three bytes of `b`.  Bytes the memmove writes at positions ≥ 3
are immediately dead (`chunk_len` becomes 3), so only these three matter. -/
def keep3 (b : List Nat) : List Nat :=
  [ b.getD (b.length - 3) 0,
    if 5 ≤ b.length then b.getD (b.length - 2) 0 else b.getD 1 0,
    if 6 ≤ b.length then b.getD (b.length - 1) 0 else b.getD 2 0 ]

/-- The compaction at the top of the skip-header loop (http.c lines 340-348). -/
def compactConn (c : Conn) : Conn :=
  if 3 < c.chunk_len then
    { c with chunk := keep3 (c.chunk.take c.chunk_len.toNat), chunk_len := 3 }
  else c

/-- First `n` with `start ≤ n < bound` such that the four bytes
`c[n-3..n]` are `\r\n\r\n` (the scan of http.c lines 357-362); `fuel`
bounds the recursion and is instantiated with `bound`. -/
def findTermAux (c : List Nat) (bound : Nat) : Nat → Nat → Option Nat
  | _, 0 => none
  | n, fuel + 1 =>
    if bound ≤ n then none
    else if (c.drop (n - 3)).take 4 = crlfcrlf then some n
    else findTermAux c bound (n + 1) fuel

def findTerm (c : List Nat) (bound : Nat) : Option Nat :=
  findTermAux c bound 3 bound

/-- Outcome of one iteration of the skip-header loop. -/
inductive StepOut
  | again (c : Conn) (evs : List ReadEvent)
  | ret (v : Int) (c : Conn) (evs : List ReadEvent)
  | ub
deriving DecidableEq, Repr

/-- One iteration of the `for (;;)` loop of http_req_skip_header
(http.c lines 339-369).  Note that the local `len` is declared `size_t`
(line 337): the value -1 returned by http_req_read becomes 2^64-1, the
`if (len < 0)` test (line 351) can never fire, and `chunk_len += len`
wraps.  `.ub` marks the paths on which the C code reads indeterminate or
out-of-bounds memory into an observable position:
  * the compaction memmove with `chunk_len ≥ 1028` reads source bytes past
    the 2048-byte array (source region ends at `2*chunk_len - 7`);
  * a scan bound exceeding the valid bytes reads stale memory;
  * a match with `chunk_len - (n+1) < 0` makes the final memmove copy a
    `(size_t)` negative = huge number of bytes. -/
def skipHeaderStep (c : Conn) (evs : List ReadEvent) : StepOut :=
  if 1028 ≤ c.chunk_len then .ub
  else
    let c1 := compactConn c
    let maxLen : Nat := (2048 - c1.chunk_len).toNat
    match http_req_read (some c1) maxLen evs with
    | (retv, data, oconn, evs') =>
      let c2 := oconn.getD c1
      let len : Nat := sizeT retv
      if len < 0 then .ret 0 c2 evs'
      else if len = 0 then .again c2 evs'
      else
        let newLen : Int := wrap64 (c2.chunk_len + (len : Int))
        let buf := c2.chunk ++ data
        let bound : Nat := sizeT newLen
        match findTerm buf (min bound buf.length) with
        | some n =>
            if newLen < (n : Int) + 1 then .ub
            else
              .ret 1 { c2 with
                chunk := (buf.take bound).drop (n + 1),
                chunk_len := newLen - ((n : Int) + 1),
                chunk_off := 0 } evs'
        | none =>
            if buf.length < bound then .ub
            else .again { c2 with chunk := buf, chunk_len := newLen } evs'

/-- Result of running the skip-header loop with a given amount of fuel. -/
inductive SkipResult
  | ret (v : Int) (c : Conn) (evs : List ReadEvent)
  | outOfFuel (c : Conn) (evs : List ReadEvent)
  | ub
deriving DecidableEq, Repr

/-- `http_req_skip_header`'s unbounded loop, iterated `fuel` times. -/
def skipHeaderLoop : Nat → Conn → List ReadEvent → SkipResult
  | 0, c, evs => .outOfFuel c evs
  | fuel + 1, c, evs =>
    match skipHeaderStep c evs with
    | .again c' evs' => skipHeaderLoop fuel c' evs'
    | .ret v c' evs' => .ret v c' evs'
    | .ub => .ub

/-!
## Byte / chunk accessors (http.c lines 374-432)
-/

/-- `http_req_byte_peek` (http.c lines 404-419).  Returns the byte (0 both
for "no byte" and for a literal NUL), the updated connection, and the
remaining events. -/
def http_req_byte_peek (req : Conn) (evs : List ReadEvent) :
    Nat × Conn × List ReadEvent :=
  if req.chunk_len = 0 ∨ req.chunk_off + 1 > req.chunk_len then
    match http_req_read (some req) 2048 evs with
    | (retv, data, oconn, evs') =>
      let r1 := { oconn.getD req with chunk := data, chunk_len := retv }
      if r1.chunk_len < 0 then (0, r1, evs')
      else
        let r2 := { r1 with chunk_off := 0 }
        if r2.chunk_len = 0 ∨ r2.chunk_off + 1 > r2.chunk_len then (0, r2, evs')
        else (r2.chunk.getD r2.chunk_off.toNat 0, r2, evs')
  else
    (req.chunk.getD req.chunk_off.toNat 0, req, evs)

/-- `http_req_byte_read` (http.c lines 421-432). -/
def http_req_byte_read (req : Conn) (evs : List ReadEvent) :
    Nat × Conn × List ReadEvent :=
  match http_req_byte_peek req evs with
  | (c, req', evs') =>
    if c = 0 then (0, req', evs')
    else (c, { req' with chunk_off := req'.chunk_off + 1 }, evs')

/-- `http_req_chunk_peek` (http.c lines 374-389); the returned pointer is
modelled as the slice of buffered bytes from the cursor on. -/
def http_req_chunk_peek (req : Conn) (evs : List ReadEvent) :
    Option (List Nat) × Conn × List ReadEvent :=
  if req.chunk_len = 0 ∨ req.chunk_off + 1 > req.chunk_len then
    match http_req_read (some req) 2048 evs with
    | (retv, data, oconn, evs') =>
      let r1 := { oconn.getD req with chunk := data, chunk_len := retv }
      if r1.chunk_len < 0 then (none, r1, evs')
      else
        let r2 := { r1 with chunk_off := 0 }
        if r2.chunk_len = 0 ∨ r2.chunk_off + 1 > r2.chunk_len then (none, r2, evs')
        else (some (r2.chunk.drop r2.chunk_off.toNat), r2, evs')
  else
    (some (req.chunk.drop req.chunk_off.toNat), req, evs)

/-- `http_req_chunk_read` (http.c lines 391-402). -/
def http_req_chunk_read (req : Conn) (evs : List ReadEvent) :
    Option (List Nat) × Conn × List ReadEvent :=
  match http_req_chunk_peek req evs with
  | (none, r, e) => (none, r, e)
  | (some ch, r, e) => (some ch, { r with chunk_off := r.chunk_len }, e)

/-- The data-model invariant of §3 of the specification:
`0 ≤ chunk_off ≤ chunk_len ≤ 2048`. -/
def ConnInv (c : Conn) : Prop :=
  0 ≤ c.chunk_off ∧ c.chunk_off ≤ c.chunk_len ∧ c.chunk_len ≤ 2048

instance : DecidablePred ConnInv := fun c => by
  unfold ConnInv; infer_instance

/-!
## url_parse (http.c lines 27-103)

The two sscanf calls are modelled by their directive semantics:
`%[^k]` matches the longest nonempty run of bytes other than `k` (no
whitespace skip), an ordinary character in the format matches itself,
`%u` skips whitespace and then converts a nonempty digit run (the model
covers plain unsigned decimals; signed or overflowing inputs are outside
every claim), `%s` skips whitespace and matches a nonempty run of
non-whitespace bytes, and `%n` yields the number of bytes consumed.
-/

def isDigitB (c : Nat) : Bool := 48 ≤ c && c ≤ 57

/-- C `isspace`: space, \t, \n, \v, \f, \r. -/
def isSpaceB (c : Nat) : Bool := c = 32 || (9 ≤ c && c ≤ 13)

def natOfDigits (ds : List Nat) : Nat :=
  ds.foldl (fun acc c => acc * 10 + (c - 48)) 0

/-- `%[^k]`: longest nonempty run of bytes other than `k`. -/
def scanNotChar (k : Nat) (s : List Nat) : Option (List Nat × List Nat) :=
  let tok := s.takeWhile (fun c => c != k)
  if tok = [] then none else some (tok, s.drop tok.length)

/-- An ordinary (literal) character directive. -/
def scanLit (k : Nat) : List Nat → Option (List Nat)
  | c :: rest => if c = k then some rest else none
  | [] => none

/-- `%u` on an unsigned decimal. -/
def scanU (s : List Nat) : Option (Nat × List Nat) :=
  let s1 := s.dropWhile isSpaceB
  let ds := s1.takeWhile isDigitB
  if ds = [] then none else some (natOfDigits ds, s1.drop ds.length)

/-- `%s`. -/
def scanS (s : List Nat) : Option (List Nat × List Nat) :=
  let s1 := s.dropWhile isSpaceB
  let tok := s1.takeWhile (fun c => !isSpaceB c)
  if tok = [] then none else some (tok, s1.drop tok.length)

/-- `sscanf(str, "%[^:]://%[^:]:%u%s%n", ...)` (http.c line 48); `some`
exactly when all four conversions succeed (ret == 4). -/
def sscanf_url_with_port (s : List Nat) :
    Option (List Nat × List Nat × Nat × List Nat × Nat) :=
  match scanNotChar 58 s with
  | none => none
  | some (scheme, r1) =>
    match scanLit 58 r1 with
    | none => none
    | some r2 =>
      match scanLit 47 r2 with
      | none => none
      | some r3 =>
        match scanLit 47 r3 with
        | none => none
        | some r4 =>
          match scanNotChar 58 r4 with
          | none => none
          | some (host, r5) =>
            match scanLit 58 r5 with
            | none => none
            | some r6 =>
              match scanU r6 with
              | none => none
              | some (port, r7) =>
                match scanS r7 with
                | none => none
                | some (path, r8) =>
                  some (scheme, host, port, path, s.length - r8.length)

/-- `sscanf(str, "%[^:]://%[^/]%s%n", ...)` (http.c line 57); `some`
exactly when all three conversions succeed (ret == 3). -/
def sscanf_url_no_port (s : List Nat) :
    Option (List Nat × List Nat × List Nat × Nat) :=
  match scanNotChar 58 s with
  | none => none
  | some (scheme, r1) =>
    match scanLit 58 r1 with
    | none => none
    | some r2 =>
      match scanLit 47 r2 with
      | none => none
      | some r3 =>
        match scanLit 47 r3 with
        | none => none
        | some r4 =>
          match scanNotChar 47 r4 with
          | none => none
          | some (host, r5) =>
            match scanS r5 with
            | none => none
            | some (path, r6) =>
              some (scheme, host, path, s.length - r6.length)

/-- `struct url` (http.h lines 29-34); `port` is an unsigned short. -/
structure URL where
  scheme : List Nat
  host : List Nat
  port : Nat
  path : List Nat
deriving DecidableEq, Repr

/-- `url_parse` (http.c lines 27-103).  The `pos > len` overflow checks
call errx(1) and terminate the process; they are unreachable and modelled
as `none`.  Storing the scanned `unsigned int` port into the `unsigned
short` field truncates mod 2^16. -/
def url_parse (s : List Nat) : Option URL :=
  match sscanf_url_with_port s with
  | some (scheme, host, port, path, pos) =>
      if s.length < pos then none
      else some { scheme := scheme, host := host, port := port % 65536, path := path }
  | none =>
    match sscanf_url_no_port s with
    | some (scheme, host, path, pos) =>
        if s.length < pos then none
        else if scheme = strBytes "http" then
          some { scheme := scheme, host := host, port := 80, path := path }
        else if scheme = strBytes "https" then
          some { scheme := scheme, host := host, port := 443, path := path }
        else none
    | none => none

/-!
## fetch_weather's JSON-token pass (weathericon.c, fetch_weather)

The pdjson stream is modelled as the list of tokens json_next produces.
String tokens carry the bytes json_get_string returns; number tokens carry
an integer (json_get_number returns a double; the id capture casts it to
int, and the claims only involve integral values, so numbers are modelled
as integers).
-/

inductive JToken
  | jerror
  | objectStart
  | objectEnd
  | arrayStart
  | arrayEnd
  | jstring (s : List Nat)
  | jnumber (n : Int)
  | jtrue
  | jfalse
  | jnull
  | jdone
deriving DecidableEq, Repr

/-- The state enumeration of fetch_weather (weathericon.c lines 304-312). -/
inductive FWState
  | stBegin
  | stInWeather
  | stInWeatherId
  | stInWeatherDesc
  | stInWeatherIcon
  | stInMain
  | stInMainTemp
deriving DecidableEq, Repr

/-- The locals and globals the token loop reads and writes:
`current_conditions`, `current_temp`, `weather_id`, `night`, the local
`str` (the last string token's text; `const char *str` is uninitialized
but is only consulted in a state reachable after a string token), and the
machine state. -/
structure FWAcc where
  conditions : List Nat
  temp : Int
  weather_id : Int
  night : Bool
  str : List Nat
  state : FWState
deriving DecidableEq, Repr

/-- C `toupper` on a byte. -/
def toupperByte (c : Nat) : Nat := if 97 ≤ c ∧ c ≤ 122 then c - 32 else c

/-- `current_conditions[0] = toupper(current_conditions[0])` on the byte
list holding the string (an empty string keeps its terminating NUL). -/
def capitalizeFirst : List Nat → List Nat
  | [] => []
  | c :: r => toupperByte c :: r

/-- One iteration of fetch_weather's token loop body (weathericon.c lines
350-402): `str` is updated first whenever the token is a string, then the
switch on `state` runs.  In STATE_IN_WEATHER_DESC the code copies `str`
without checking the token type (strlcpy into the 100-byte buffer keeps
99 bytes), so a non-string token there captures the stale `str` — which is
necessarily the key "description" that entered the state.  In
STATE_IN_WEATHER_ICON, `night = (str[2] == 'n')` reads the third byte of
the icon text: for a 2-byte string this is the NUL terminator (modelled by
`getD`'s default 0); shorter strings would read indeterminate memory but
do not occur in any claim. -/
def fwStep (a : FWAcc) (jt : JToken) : FWAcc :=
  let a := match jt with
    | .jstring s => { a with str := s }
    | _ => a
  match a.state with
  | .stBegin =>
      if jt = .jstring (strBytes "weather") then { a with state := .stInWeather }
      else if jt = .jstring (strBytes "main") then { a with state := .stInMain }
      else a
  | .stInWeather =>
      if jt = .jstring (strBytes "description") then { a with state := .stInWeatherDesc }
      else if jt = .jstring (strBytes "id") then { a with state := .stInWeatherId }
      else if jt = .jstring (strBytes "icon") then { a with state := .stInWeatherIcon }
      else if jt = .objectEnd then { a with state := .stBegin }
      else a
  | .stInWeatherId =>
      match jt with
      | .jnumber n => { a with weather_id := n, state := .stInWeather }
      | _ => { a with state := .stInWeather }
  | .stInWeatherIcon =>
      match jt with
      | .jstring s => { a with night := s.getD 2 0 = 110, state := .stInWeather }
      | _ => { a with state := .stInWeather }
  | .stInWeatherDesc =>
      { a with conditions := capitalizeFirst (a.str.take 99), state := .stInWeather }
  | .stInMain =>
      if jt = .jstring (strBytes "temp") then { a with state := .stInMainTemp }
      else a
  | .stInMainTemp =>
      match jt with
      | .jnumber n => { a with temp := n, state := .stInMain }
      | _ => { a with state := .stInMain }

/-- The token loop (weathericon.c line 349): it stops as soon as json_next
yields JSON_DONE, or yields JSON_ERROR (which sets the stream's latched
error, failing the `!json_get_error` test), without processing that token.
Parameterized by the step function so the code's machine can be compared
with machines transcribed from the specification text. -/
def runWith (step : FWAcc → JToken → FWAcc) : FWAcc → List JToken → FWAcc
  | a, [] => a
  | a, jt :: rest =>
    if jt = .jdone ∨ jt = .jerror then a
    else runWith step (step a jt) rest

/-- Run of the code's machine. -/
def runTokens : FWAcc → List JToken → FWAcc := runWith fwStep

/-- The sentinel written before parsing (weathericon.c lines 341-342). -/
def failSentinel : List Nat := strBytes "(Failed to parse API response)"

/-- Initial accumulator state (weathericon.c lines 341-345 plus
`state = STATE_BEGIN`); the uninitialized local `str` is modelled as []. -/
def initAcc : FWAcc :=
  { conditions := failSentinel, temp := 0, weather_id := 0, night := false,
    str := [], state := .stBegin }

/-- `enum icon_type` (weathericon.c lines 55-61). -/
inductive IconType
  | sun
  | clouds
  | moon
  | rain
  | snow
deriving DecidableEq, Repr

/-- The weather-code-to-icon mapping (weathericon.c lines 417-431). -/
def icon_for (weather_id : Int) (night : Bool) : IconType :=
  if 200 ≤ weather_id ∧ weather_id ≤ 399 then .rain
  else if 500 ≤ weather_id ∧ weather_id ≤ 599 then .rain
  else if 600 ≤ weather_id ∧ weather_id ≤ 699 then .snow
  else if 801 ≤ weather_id ∧ weather_id ≤ 804 then .clouds
  else if night then .moon else .sun

/-- Decimal bytes of an integer, as printf %d renders it. -/
def intDigits (i : Int) : List Nat := strBytes (toString i)

/-- The `", %d%c%c"` suffix appended after the token loop (weathericon.c
lines 412-415): 0xb0 is the degree symbol, then F or C. -/
def tempSuffix (t : Int) (fahrenheit : Bool) : List Nat :=
  strBytes ", " ++ intDigits t ++ [176, if fahrenheit then 70 else 67]

/-- What fetch_weather computes and returns once the HTTP header has been
skipped successfully (weathericon.c lines 341-435): the sentinel reset,
the token pass, the temperature suffix appended by snprintf into the
100-byte buffer (truncated to 99 content bytes), the icon selection and
the final `return 0`.  The earlier transport-failure paths return 1
without touching `current_conditions`. -/
structure FetchOut where
  ret : Nat
  conditions : List Nat
  current_temp : Int
  weather_id : Int
  night : Bool
  icon : IconType
deriving DecidableEq, Repr

def fetch_weather_parse (toks : List JToken) (fahrenheit : Bool) : FetchOut :=
  let a := runTokens initAcc toks
  { ret := 0
    conditions := (a.conditions ++ tempSuffix a.temp fahrenheit).take 99
    current_temp := a.temp
    weather_id := a.weather_id
    night := a.night
    icon := icon_for a.weather_id a.night }

/-- A token stream whose traversal ends at the parser's Error state rather
than Done (the loop of weathericon.c line 349 exits via json_get_error). -/
def endsInError : List JToken → Bool
  | [] => false
  | .jerror :: _ => true
  | .jdone :: _ => false
  | _ :: rest => endsInError rest

/-!
## Byte streams fed to the header-skip loop
-/

/-- Bytes carried by one read event. -/
def bytesOf : ReadEvent → List Nat
  | .bytes d => d
  | _ => []

/-- Concatenation of all bytes an event list delivers. -/
def streamBytes (evs : List ReadEvent) : List Nat := (evs.map bytesOf).flatten

/-- The terminator occurs in `s` at position `p` (all four bytes). -/
def hasTermAt (s : List Nat) (p : Nat) : Prop := (s.drop p).take 4 = crlfcrlf

instance (s : List Nat) (p : Nat) : Decidable (hasTermAt s p) := by
  unfold hasTermAt; infer_instance

/-- Decidable check that the terminator occurs somewhere in `s`. -/
def containsTermB (s : List Nat) : Bool :=
  decide (∃ p < s.length, hasTermAt s p)

/-- Admissible splits for the corrected header-skip claim: no hard error,
and each delivered read is at most 1024 bytes and either delivers at least
6 bytes or completes the terminator within the bytes delivered so far.
(`D` accumulates the bytes delivered before the remaining events.) -/
def goodSplitB : List Nat → List ReadEvent → Bool
  | _, [] => true
  | D, .noData :: rest => goodSplitB D rest
  | _, .hardError :: _ => false
  | D, .bytes d :: rest =>
      decide (d.length ≤ 1024) &&
      (decide (6 ≤ d.length) || containsTermB (D ++ d)) &&
      goodSplitB (D ++ d) rest

/-- The loop invariant of the corrected header-skip theorem, holding at the
top of each iteration: `D` is everything delivered so far, the valid
buffer is the suffix of `D` from position `k` on, that suffix is either
everything or at least the last three bytes, its length is outside the
4..5 range that breaks the carry and small enough for the compaction
memmove to stay in bounds, and no terminator occurs in `D` (otherwise an
earlier scan would have returned). -/
def InvTop (c : Conn) (D : List Nat) (k : Nat) : Prop :=
  c.socket ≠ 0 ∧
  c.chunk = D.drop k ∧
  k ≤ D.length ∧
  c.chunk_len = ((D.length - k : Nat) : Int) ∧
  (k = 0 ∨ k + 3 ≤ D.length) ∧
  (D.length - k ≤ 3 ∨ 6 ≤ D.length - k) ∧
  D.length - k ≤ 1027 ∧
  (∀ p, ¬ hasTermAt D p)

def ceConn1 : Conn :=
  { socket := 1, chunk := [65, 13, 10, 13], chunk_len := 4, chunk_off := 0 }

def ceConn2 : Conn :=
  { socket := 1, chunk := [13, 13, 10, 10, 66, 79, 68, 89], chunk_len := 8, chunk_off := 0 }

/-- Machine transcribed from the specification's transition rules (C9 as
stated): identical to the code's machine except in the description
sub-state, where the specification says the *next token's value* is
captured — so a string token's text is captured there and a non-string
token captures nothing. -/
def fwStepClaim (a : FWAcc) (jt : JToken) : FWAcc :=
  let a := match jt with
    | .jstring s => { a with str := s }
    | _ => a
  match a.state with
  | .stBegin =>
      if jt = .jstring (strBytes "weather") then { a with state := .stInWeather }
      else if jt = .jstring (strBytes "main") then { a with state := .stInMain }
      else a
  | .stInWeather =>
      if jt = .jstring (strBytes "description") then { a with state := .stInWeatherDesc }
      else if jt = .jstring (strBytes "id") then { a with state := .stInWeatherId }
      else if jt = .jstring (strBytes "icon") then { a with state := .stInWeatherIcon }
      else if jt = .objectEnd then { a with state := .stBegin }
      else a
  | .stInWeatherId =>
      match jt with
      | .jnumber n => { a with weather_id := n, state := .stInWeather }
      | _ => { a with state := .stInWeather }
  | .stInWeatherIcon =>
      match jt with
      | .jstring s => { a with night := s.getD 2 0 = 110, state := .stInWeather }
      | _ => { a with state := .stInWeather }
  | .stInWeatherDesc =>
      match jt with
      | .jstring s =>
          { a with conditions := capitalizeFirst (s.take 99), state := .stInWeather }
      | _ => { a with state := .stInWeather }
  | .stInMain =>
      if jt = .jstring (strBytes "temp") then { a with state := .stInMainTemp }
      else a
  | .stInMainTemp =>
      match jt with
      | .jnumber n => { a with temp := n, state := .stInMain }
      | _ => { a with state := .stInMain }

/-- Observable accumulators of the field-extraction machine. -/
def obsAcc (a : FWAcc) : List Nat × Int × Int × Bool :=
  (a.conditions, a.temp, a.weather_id, a.night)

/-!
## Generic list helpers
-/

theorem getD_append_right_my (u v : List Nat) (i d : Nat) :
    (u ++ v).getD (u.length + i) d = v.getD i d := by
  induction u with
  | nil => simp
  | cons a t ih => simpa [Nat.succ_add] using ih

theorem keep3_eq_drop (b : List Nat) (h : 6 ≤ b.length) :
    keep3 b = b.drop (b.length - 3) := by
  have h1 : b.length - 3 < b.length := by omega
  have h2 : b.length - 2 < b.length := by omega
  have h3 : b.length - 1 < b.length := by omega
  have k1 : b.length - 3 + 1 = b.length - 2 := by omega
  have k2 : b.length - 2 + 1 = b.length - 1 := by omega
  have k3 : b.length - 1 + 1 = b.length := by omega
  rw [List.drop_eq_getElem_cons h1, k1, List.drop_eq_getElem_cons h2, k2,
    List.drop_eq_getElem_cons h3, k3, List.drop_length]
  simp [keep3, if_pos h, if_pos (by omega : 5 ≤ b.length),
    List.getD_eq_getElem?_getD, List.getElem?_eq_getElem, h1, h2, h3]

/-!
## Terminator-occurrence helpers
-/

theorem hasTermAt_length {s : List Nat} {p : Nat} (h : hasTermAt s p) :
    p + 4 ≤ s.length := by
  unfold hasTermAt at h
  have : ((s.drop p).take 4).length = 4 := by rw [h]; rfl
  simp at this
  omega

theorem hasTermAt_drop (s : List Nat) (k q : Nat) :
    hasTermAt (s.drop k) q ↔ hasTermAt s (k + q) := by
  unfold hasTermAt
  rw [List.drop_drop]

theorem hasTermAt_append_left {s : List Nat} (t : List Nat) {p : Nat}
    (h : hasTermAt s p) : hasTermAt (s ++ t) p := by
  have hl := hasTermAt_length h
  unfold hasTermAt at h ⊢
  rw [List.drop_append_of_le_length (by omega), List.take_append_of_le_length (by simp; omega)]
  exact h

theorem hasTermAt_append_restrict {s t : List Nat} {p : Nat}
    (h : hasTermAt (s ++ t) p) (hp : p + 4 ≤ s.length) : hasTermAt s p := by
  unfold hasTermAt at h ⊢
  rw [List.drop_append_of_le_length (by omega),
    List.take_append_of_le_length (by simp; omega)] at h
  exact h

theorem containsTermB_iff (s : List Nat) :
    containsTermB s = true ↔ ∃ p, hasTermAt s p := by
  unfold containsTermB
  rw [decide_eq_true_iff]
  constructor
  · rintro ⟨p, _, hp⟩; exact ⟨p, hp⟩
  · rintro ⟨p, hp⟩
    exact ⟨p, by have := hasTermAt_length hp; omega, hp⟩

/-!
## findTerm characterization
-/

theorem findTermAux_none {c : List Nat} {bound : Nat} :
    ∀ {n fuel : Nat}, findTermAux c bound n fuel = none → bound ≤ n + fuel →
    ∀ j, n ≤ j → j < bound → ¬ (c.drop (j - 3)).take 4 = crlfcrlf := by
  intro n fuel
  induction fuel generalizing n with
  | zero => intro _ hb j hj1 hj2; omega
  | succ m ih =>
    intro h hb j hj1 hj2
    rw [findTermAux] at h
    by_cases hbn : bound ≤ n
    · omega
    · rw [if_neg hbn] at h
      by_cases hw : (c.drop (n - 3)).take 4 = crlfcrlf
      · rw [if_pos hw] at h; exact absurd h (by simp)
      · rw [if_neg hw] at h
        rcases Nat.eq_or_lt_of_le hj1 with rfl | hlt
        · exact hw
        · exact ih h (by omega) j hlt hj2

theorem findTermAux_some {c : List Nat} {bound : Nat} :
    ∀ {n fuel m : Nat}, findTermAux c bound n fuel = some m →
    n ≤ m ∧ m < bound ∧ (c.drop (m - 3)).take 4 = crlfcrlf ∧
      ∀ j, n ≤ j → j < m → ¬ (c.drop (j - 3)).take 4 = crlfcrlf := by
  intro n fuel
  induction fuel generalizing n with
  | zero => intro m h; rw [findTermAux] at h; exact absurd h (by simp)
  | succ k ih =>
    intro m h
    rw [findTermAux] at h
    by_cases hbn : bound ≤ n
    · rw [if_pos hbn] at h; exact absurd h (by simp)
    · rw [if_neg hbn] at h
      by_cases hw : (c.drop (n - 3)).take 4 = crlfcrlf
      · rw [if_pos hw] at h
        cases h
        exact ⟨le_refl _, by omega, hw, fun j hj1 hj2 => by omega⟩
      · rw [if_neg hw] at h
        obtain ⟨h1, h2, h3, h4⟩ := ih h
        refine ⟨by omega, h2, h3, fun j hj1 hj2 hj3 => ?_⟩
        rcases Nat.eq_or_lt_of_le hj1 with rfl | hlt
        · exact hw hj3
        · exact h4 j hlt hj2 hj3

theorem findTerm_none {buf : List Nat} (h : findTerm buf buf.length = none) :
    ∀ q, ¬ hasTermAt buf q := by
  intro q hq
  have hlen := hasTermAt_length hq
  have := findTermAux_none h (by omega) (q + 3) (by omega) (by omega)
  exact this (by simpa [hasTermAt, Nat.add_sub_cancel] using hq)

theorem findTerm_some {buf : List Nat} {n : Nat}
    (h : findTerm buf buf.length = some n) :
    3 ≤ n ∧ n < buf.length ∧ hasTermAt buf (n - 3) ∧
      ∀ q, hasTermAt buf q → n - 3 ≤ q := by
  obtain ⟨h1, h2, h3, h4⟩ := findTermAux_some h
  refine ⟨h1, h2, h3, ?_⟩
  intro q hq
  by_contra hcon
  push_neg at hcon
  exact h4 (q + 3) (by omega) (by omega)
    (by simpa [hasTermAt, Nat.add_sub_cancel] using hq)

/-!
## Arithmetic helpers
-/

theorem sizeT_coe (n : Nat) (h : n < 2 ^ 64) : sizeT (n : Int) = n := by
  unfold sizeT
  rw [Int.emod_eq_of_lt (by positivity) (by exact_mod_cast h)]
  simp

theorem wrap64_eq (x : Int) (h1 : -(2 ^ 63) ≤ x) (h2 : x < 2 ^ 63) : wrap64 x = x := by
  unfold wrap64
  have e64 : (2 : Int) ^ 64 = 18446744073709551616 := by norm_num
  have e63 : (2 : Int) ^ 63 = 9223372036854775808 := by norm_num
  rw [e64]
  rw [e63] at h1 h2 ⊢
  rw [Int.emod_eq_of_lt (by omega) (by omega)]
  omega

theorem sizeT_nonneg_toNat (x : Int) (h0 : 0 ≤ x) (h : x < 2 ^ 64) :
    sizeT x = x.toNat := by
  unfold sizeT
  rw [Int.emod_eq_of_lt h0 h]

/-!
## http_req_read evaluation lemmas
-/

theorem http_req_read_noData (c : Conn) (maxLen : Nat) (rest : List ReadEvent)
    (hs : c.socket ≠ 0) :
    http_req_read (some c) maxLen (.noData :: rest) = (0, [], some c, rest) := by
  simp [http_req_read, hs]

theorem http_req_read_nil (c : Conn) (maxLen : Nat) (hs : c.socket ≠ 0) :
    http_req_read (some c) maxLen [] = (0, [], some c, []) := by
  simp [http_req_read, hs]

theorem http_req_read_bytes (c : Conn) (maxLen : Nat) (d : List Nat)
    (rest : List ReadEvent) (hs : c.socket ≠ 0) (hd : d.length ≤ maxLen) :
    http_req_read (some c) maxLen (.bytes d :: rest) =
      ((d.length : Int), d, some c, rest) := by
  simp [http_req_read, hs, List.take_of_length_le hd, hd]

/-!
## skipHeaderLoop unfolding
-/

theorem skipHeaderLoop_again {c c' : Conn} {evs evs' : List ReadEvent} (fuel : Nat)
    (h : skipHeaderStep c evs = .again c' evs') :
    skipHeaderLoop (fuel + 1) c evs = skipHeaderLoop fuel c' evs' := by
  rw [skipHeaderLoop, h]

theorem skipHeaderLoop_one {c c' : Conn} {evs evs' : List ReadEvent} {v : Int}
    (fuel : Nat) (h : skipHeaderStep c evs = .ret v c' evs') :
    skipHeaderLoop (fuel + 1) c evs = .ret v c' evs' := by
  rw [skipHeaderLoop, h]

/-!
## Symbolic evaluation of one skip-header iteration
-/

theorem compactConn_socket (c : Conn) : (compactConn c).socket = c.socket := by
  unfold compactConn; split <;> rfl

theorem compactConn_spec (c : Conn) (D : List Nat) (k : Nat)
    (hchunk : c.chunk = D.drop k) (hk : k ≤ D.length)
    (hlen : c.chunk_len = ((D.length - k : Nat) : Int))
    (hgap : D.length - k ≤ 3 ∨ 6 ≤ D.length - k)
    (hk03 : k = 0 ∨ k + 3 ≤ D.length) :
    ∃ k1, k1 ≤ D.length ∧
      (compactConn c).chunk = D.drop k1 ∧
      (compactConn c).chunk_len = ((D.length - k1 : Nat) : Int) ∧
      D.length - k1 ≤ 3 ∧
      (k1 = 0 ∨ k1 + 3 ≤ D.length) ∧
      (∀ p, D.length ≤ p + 3 → k1 ≤ p) := by
  unfold compactConn
  by_cases h3 : 3 < c.chunk_len
  · have hgt : 3 < D.length - k := by
      rw [hlen] at h3; exact_mod_cast h3
    have h6 : 6 ≤ D.length - k := by omega
    refine ⟨D.length - 3, by omega, ?_, ?_, by omega, by omega, by omega⟩
    · rw [if_pos h3]
      show keep3 (c.chunk.take c.chunk_len.toNat) = D.drop (D.length - 3)
      have hlc : c.chunk.length = D.length - k := by simp [hchunk]
      have htake : c.chunk.take c.chunk_len.toNat = c.chunk := by
        apply List.take_of_length_le
        rw [hlc, hlen]
        simp
      rw [htake, keep3_eq_drop _ (by omega), hchunk, List.drop_drop]
      congr 1
      simp only [List.length_drop]
      omega
    · rw [if_pos h3]
      show (3 : Int) = ((D.length - (D.length - 3) : Nat) : Int)
      omega
  · refine ⟨k, hk, ?_, ?_, ?_, hk03, ?_⟩
    · rw [if_neg h3]; exact hchunk
    · rw [if_neg h3]; exact hlen
    · rw [hlen] at h3; omega
    · intro p hp; omega

theorem skipHeaderStep_noData (c : Conn) (rest : List ReadEvent)
    (hs : c.socket ≠ 0) (hlt : c.chunk_len < 1028) :
    skipHeaderStep c (.noData :: rest) = .again (compactConn c) rest := by
  unfold skipHeaderStep
  rw [if_neg (by omega)]
  have hr := http_req_read_noData (compactConn c)
    ((2048 - (compactConn c).chunk_len).toNat) rest
    (by rw [compactConn_socket]; exact hs)
  simp only [hr, Option.getD_some, sizeT]
  norm_num

theorem skipHeaderStep_nil (c : Conn)
    (hs : c.socket ≠ 0) (hlt : c.chunk_len < 1028) :
    skipHeaderStep c [] = .again (compactConn c) [] := by
  unfold skipHeaderStep
  rw [if_neg (by omega)]
  have hr := http_req_read_nil (compactConn c)
    ((2048 - (compactConn c).chunk_len).toNat)
    (by rw [compactConn_socket]; exact hs)
  simp only [hr, Option.getD_some, sizeT]
  norm_num

theorem skipHeaderStep_bytes (c : Conn) (d : List Nat) (rest : List ReadEvent)
    (hs : c.socket ≠ 0) (hlt : c.chunk_len < 1028)
    (hcoh : (((compactConn c).chunk.length : Nat) : Int) = (compactConn c).chunk_len)
    (hc3 : (compactConn c).chunk_len ≤ 3)
    (hd1 : d ≠ []) (hd2 : d.length ≤ 1024) :
    skipHeaderStep c (.bytes d :: rest) =
      (match findTerm ((compactConn c).chunk ++ d)
          ((compactConn c).chunk ++ d).length with
      | some n => .ret 1 { compactConn c with
            chunk := ((compactConn c).chunk ++ d).drop (n + 1),
            chunk_len := ((((compactConn c).chunk ++ d).length : Nat) : Int) - ((n : Int) + 1),
            chunk_off := 0 } rest
      | none => .again { compactConn c with
            chunk := (compactConn c).chunk ++ d,
            chunk_len := ((((compactConn c).chunk ++ d).length : Nat) : Int) } rest) := by
  have hp63 : ((2 : Int) ^ 63) = 9223372036854775808 := by norm_num
  have hp64 : ((2 : Int) ^ 64) = 18446744073709551616 := by norm_num
  have hp64n : ((2 : Nat) ^ 64) = 18446744073709551616 := by norm_num
  unfold skipHeaderStep
  rw [if_neg (by omega)]
  have hmax : d.length ≤ (2048 - (compactConn c).chunk_len).toNat := by omega
  have hr := http_req_read_bytes (compactConn c)
    ((2048 - (compactConn c).chunk_len).toNat) d rest
    (by rw [compactConn_socket]; exact hs) hmax
  simp only [hr, Option.getD_some]
  have hsz : sizeT ((d.length : Nat) : Int) = d.length := sizeT_coe _ (by omega)
  simp only [hsz]
  rw [if_neg (by omega), if_neg (by simpa using hd1)]
  have hw : wrap64 ((compactConn c).chunk_len + (d.length : Int)) =
      (compactConn c).chunk_len + d.length := wrap64_eq _ (by omega) (by omega)
  simp only [hw]
  have hb : sizeT ((compactConn c).chunk_len + (d.length : Int)) =
      ((compactConn c).chunk ++ d).length := by
    rw [sizeT_nonneg_toNat _ (by omega) (by omega)]
    simp only [List.length_append]
    omega
  simp only [hb, min_self]
  cases hft : findTerm ((compactConn c).chunk ++ d)
      ((compactConn c).chunk ++ d).length with
  | none =>
      simp only [hft]
      rw [if_neg (by omega)]
      have : (compactConn c).chunk_len + ((d.length : Nat) : Int) =
          ((((compactConn c).chunk ++ d).length : Nat) : Int) := by
        simp only [List.length_append]; omega
      rw [this]
  | some n =>
      simp only [hft]
      obtain ⟨hn3, hnlt, _, _⟩ := findTerm_some hft
      rw [if_neg (by simp only [List.length_append] at hnlt ⊢; omega)]
      rw [List.take_length]
      have : (compactConn c).chunk_len + ((d.length : Nat) : Int) =
          ((((compactConn c).chunk ++ d).length : Nat) : Int) := by
        simp only [List.length_append]; omega
      rw [this]

theorem streamBytes_nil : streamBytes [] = [] := rfl

theorem streamBytes_noData (rest : List ReadEvent) :
    streamBytes (.noData :: rest) = streamBytes rest := by
  simp [streamBytes, bytesOf]

theorem streamBytes_bytes (d : List Nat) (rest : List ReadEvent) :
    streamBytes (.bytes d :: rest) = d ++ streamBytes rest := by
  simp [streamBytes, bytesOf]


theorem skipHeader_main :
    ∀ (evs : List ReadEvent) (D : List Nat) (k : Nat) (c : Conn),
    InvTop c D k → goodSplitB D evs = true →
    (∃ p, hasTermAt (D ++ streamBytes evs) p) →
    ∃ fuel c' evs' p,
      skipHeaderLoop fuel c evs = .ret 1 c' evs' ∧
      c'.chunk_off = 0 ∧
      hasTermAt (D ++ streamBytes evs) p ∧
      (∀ q, hasTermAt (D ++ streamBytes evs) q → p ≤ q) ∧
      c'.chunk ++ streamBytes evs' = (D ++ streamBytes evs).drop (p + 4) := by
  intro evs
  induction evs with
  | nil =>
      intro D k c hInv _ hex
      obtain ⟨p, hp⟩ := hex
      rw [streamBytes_nil, List.append_nil] at hp
      exact absurd hp (hInv.2.2.2.2.2.2.2 p)
  | cons e rest ih =>
      intro D k c hInv hgood hex
      obtain ⟨hs, hchunk, hk, hlen, hk03, hgap, h1027, hnoterm⟩ := hInv
      match e with
      | .hardError =>
          rw [goodSplitB] at hgood
          exact absurd hgood (by simp)
      | .noData =>
          rw [streamBytes_noData] at hex ⊢
          obtain ⟨k1, hk1, hch1, hlen1, hle3, hk103, hcov⟩ :=
            compactConn_spec c D k hchunk hk hlen hgap hk03
          have hInv1 : InvTop (compactConn c) D k1 :=
            ⟨by rw [compactConn_socket]; exact hs, hch1, hk1, hlen1, hk103,
              Or.inl hle3, by omega, hnoterm⟩
          have hgood1 : goodSplitB D rest = true := by
            rw [goodSplitB] at hgood; exact hgood
          obtain ⟨fuel, c', evs', p, hloop, hoff, hterm, hmin, hchunk'⟩ :=
            ih D k1 (compactConn c) hInv1 hgood1 hex
          refine ⟨fuel + 1, c', evs', p, ?_, hoff, hterm, hmin, hchunk'⟩
          rw [skipHeaderLoop_again fuel (skipHeaderStep_noData c rest hs (by omega))]
          exact hloop
      | .bytes d =>
          rw [streamBytes_bytes, ← List.append_assoc] at hex ⊢
          rw [goodSplitB] at hgood
          simp only [Bool.and_eq_true, Bool.or_eq_true, decide_eq_true_eq] at hgood
          obtain ⟨⟨hd1024, h6ct⟩, hgoodrest⟩ := hgood
          have hdne : d ≠ [] := by
            rintro rfl
            rcases h6ct with h6 | hct
            · simp at h6
            · rw [List.append_nil] at hct
              obtain ⟨p, hp⟩ := (containsTermB_iff D).mp hct
              exact hnoterm p hp
          obtain ⟨k1, hk1, hch1, hlen1, hle3, hk103, hcov⟩ :=
            compactConn_spec c D k hchunk hk hlen hgap hk03
          have hbuf : (compactConn c).chunk ++ d = (D ++ d).drop k1 := by
            rw [hch1, List.drop_append_of_le_length hk1]
          have hbuflen : ((compactConn c).chunk ++ d).length =
              (D ++ d).length - k1 := by
            rw [hbuf]; simp
          have hcoh : (((compactConn c).chunk.length : Nat) : Int) =
              (compactConn c).chunk_len := by
            rw [hch1, hlen1]; simp
          have hc3 : (compactConn c).chunk_len ≤ 3 := by
            rw [hlen1]; exact_mod_cast hle3
          have hstep := skipHeaderStep_bytes c d rest hs (by omega) hcoh hc3 hdne hd1024
          have hcovp : ∀ p, hasTermAt (D ++ d) p → k1 ≤ p := by
            intro p hp
            by_cases hpin : p + 4 ≤ D.length
            · exact absurd (hasTermAt_append_restrict hp hpin) (hnoterm p)
            · exact hcov p (by omega)
          cases hft : findTerm ((compactConn c).chunk ++ d)
              ((compactConn c).chunk ++ d).length with
          | some n =>
              rw [hft] at hstep
              obtain ⟨hn3, hnlt, hnterm, hnmin⟩ := findTerm_some hft
              have hptermDd : hasTermAt (D ++ d) (k1 + (n - 3)) := by
                rw [← hasTermAt_drop, ← hbuf]
                exact hnterm
              have hminDd : ∀ q, hasTermAt (D ++ d) q → k1 + (n - 3) ≤ q := by
                intro q hq
                have hk1q := hcovp q hq
                have hbq : hasTermAt ((compactConn c).chunk ++ d) (q - k1) := by
                  rw [hbuf, hasTermAt_drop]
                  have e : k1 + (q - k1) = q := by omega
                  rw [e]; exact hq
                have := hnmin (q - k1) hbq
                omega
              have hlenDd : k1 + (n - 3) + 4 ≤ (D ++ d).length := by
                have := hasTermAt_length hnterm
                omega
              refine ⟨1, _, rest, k1 + (n - 3), skipHeaderLoop_one 0 hstep, rfl,
                hasTermAt_append_left _ hptermDd, ?_, ?_⟩
              · intro q hq
                by_cases hqin : q + 4 ≤ (D ++ d).length
                · exact hminDd q (hasTermAt_append_restrict hq hqin)
                · have := hasTermAt_length hq
                  omega
              · show ((compactConn c).chunk ++ d).drop (n + 1) ++ streamBytes rest = _
                rw [hbuf, List.drop_drop,
                  List.drop_append_of_le_length hlenDd]
                congr 2
                omega
          | none =>
              rw [hft] at hstep
              have hnone := findTerm_none hft
              have hnotermDd : ∀ p, ¬ hasTermAt (D ++ d) p := by
                intro p hp
                have hk1p := hcovp p hp
                apply hnone (p - k1)
                rw [hbuf, hasTermAt_drop]
                have e : k1 + (p - k1) = p := by omega
                rw [e]; exact hp
              have h6 : 6 ≤ d.length := by
                rcases h6ct with h6 | hct
                · exact h6
                · obtain ⟨p, hp⟩ := (containsTermB_iff (D ++ d)).mp hct
                  exact absurd hp (hnotermDd p)
              have hInv2 : InvTop ({ compactConn c with
                    chunk := (compactConn c).chunk ++ d,
                    chunk_len := ((((compactConn c).chunk ++ d).length : Nat) : Int) } : Conn)
                  (D ++ d) k1 := by
                refine ⟨?_, hbuf, ?_, ?_, ?_, ?_, ?_, hnotermDd⟩
                · show (compactConn c).socket ≠ 0
                  rw [compactConn_socket]; exact hs
                · simp only [List.length_append]; omega
                · show (((compactConn c).chunk ++ d).length : Int) = _
                  rw [hbuflen]
                · rcases hk103 with h | h
                  · exact Or.inl h
                  · exact Or.inr (by simp only [List.length_append]; omega)
                · refine Or.inr ?_
                  simp only [List.length_append]
                  omega
                · simp only [List.length_append]
                  omega
              obtain ⟨fuel, c', evs', p, hloop, hoff, hterm, hmin, hchunk'⟩ :=
                ih (D ++ d) k1 _ hInv2 hgoodrest hex
              refine ⟨fuel + 1, c', evs', p, ?_, hoff, hterm, hmin, hchunk'⟩
              rw [skipHeaderLoop_again fuel hstep]
              exact hloop

/-- C1 (amended): for every split of the response into successive reads
with no hard error, in which every delivered read carries at most 1024
bytes and either carries at least 6 bytes or completes the terminator
within the bytes delivered so far, if the concatenation of the delivered
bytes contains `\r\n\r\n` then http_req_skip_header returns success (1),
leaves `chunk_off = 0`, and leaves exactly the bytes after the first
terminator occurrence at the start of the buffer (buffered bytes plus the
not-yet-delivered remainder equal the stream past the terminator). -/
theorem skip_header_finds_terminator (evs : List ReadEvent)
    (hgood : goodSplitB [] evs = true)
    (hterm : containsTermB (streamBytes evs) = true) :
    ∃ fuel c' evs' p,
      skipHeaderLoop fuel freshConn evs = .ret 1 c' evs' ∧
      c'.chunk_off = 0 ∧
      hasTermAt (streamBytes evs) p ∧
      (∀ q, hasTermAt (streamBytes evs) q → p ≤ q) ∧
      c'.chunk ++ streamBytes evs' = (streamBytes evs).drop (p + 4) := by
  have hInv : InvTop freshConn [] 0 := by
    refine ⟨by decide, rfl, by simp, by simp [freshConn], Or.inl rfl,
      Or.inl (by simp), by simp, ?_⟩
    intro p hp
    have := hasTermAt_length hp
    simp at this
  have hmain := skipHeader_main evs [] 0 freshConn hInv hgood (by
    obtain ⟨p, hp⟩ := (containsTermB_iff _).mp hterm
    exact ⟨p, by simpa using hp⟩)
  simpa using hmain

/-- Witness: the split featured in the claim — `"HTTP/1.0 200 OK\r\n\r"`
then `"\nBODY"` — satisfies the amended hypotheses and therefore succeeds
with the body at the start of the buffer. -/
theorem skip_header_finds_terminator_witness :
    goodSplitB [] [ReadEvent.bytes (strBytes "HTTP/1.0 200 OK\r\n\r"),
      ReadEvent.bytes (strBytes "\nBODY")] = true ∧
    containsTermB (streamBytes [ReadEvent.bytes (strBytes "HTTP/1.0 200 OK\r\n\r"),
      ReadEvent.bytes (strBytes "\nBODY")]) = true ∧
    ∃ fuel c' evs' p,
      skipHeaderLoop fuel freshConn
        [ReadEvent.bytes (strBytes "HTTP/1.0 200 OK\r\n\r"),
         ReadEvent.bytes (strBytes "\nBODY")] = .ret 1 c' evs' ∧
      c'.chunk_off = 0 ∧
      hasTermAt (streamBytes [ReadEvent.bytes (strBytes "HTTP/1.0 200 OK\r\n\r"),
        ReadEvent.bytes (strBytes "\nBODY")]) p ∧
      (∀ q, hasTermAt (streamBytes [ReadEvent.bytes (strBytes "HTTP/1.0 200 OK\r\n\r"),
        ReadEvent.bytes (strBytes "\nBODY")]) q → p ≤ q) ∧
      c'.chunk ++ streamBytes evs' =
        (streamBytes [ReadEvent.bytes (strBytes "HTTP/1.0 200 OK\r\n\r"),
          ReadEvent.bytes (strBytes "\nBODY")]).drop (p + 4) :=
  ⟨by decide, by decide, skip_header_finds_terminator _ (by decide) (by decide)⟩

theorem skipHeaderLoop_empty_no_ret (fuel : Nat) :
    ∀ c : Conn, c.socket ≠ 0 → 0 ≤ c.chunk_len → c.chunk_len < 1028 →
    ∀ v c' e', skipHeaderLoop fuel c [] ≠ .ret v c' e' := by
  induction fuel with
  | zero =>
      intro c _ _ _ v c' e' h
      rw [skipHeaderLoop] at h
      exact absurd h (by simp)
  | succ m ih =>
      intro c hs h0 hlt v c' e' h
      rw [skipHeaderLoop_again m (skipHeaderStep_nil c hs hlt)] at h
      have hcs : (compactConn c).socket ≠ 0 := by rw [compactConn_socket]; exact hs
      have h0' : 0 ≤ (compactConn c).chunk_len := by
        unfold compactConn; split
        · show (0 : Int) ≤ 3; norm_num
        · exact h0
      have hlt' : (compactConn c).chunk_len < 1028 := by
        unfold compactConn; split
        · show (3 : Int) < 1028; norm_num
        · exact hlt
      exact ih (compactConn c) hcs h0' hlt' v c' e' h

/-- C1 counterexample: the split `"A\r\n\r"` then `"\nBODY"` delivers a
stream containing `\r\n\r\n`, with no hard error, yet http_req_skip_header
never returns success: the first read leaves 4 bytes in the buffer, and
the compaction memmove (whose count is `chunk_len - 3 = 1`, not 3) retains
`\r\r\n` instead of `\r\n\r`, so the split terminator is missed and the
loop spins on empty reads forever. -/

theorem skip_header_split_counterexample :
    containsTermB (streamBytes [ReadEvent.bytes (strBytes "A\r\n\r"),
      ReadEvent.bytes (strBytes "\nBODY")]) = true ∧
    ¬ ∃ fuel c' evs', skipHeaderLoop fuel freshConn
        [ReadEvent.bytes (strBytes "A\r\n\r"), ReadEvent.bytes (strBytes "\nBODY")] =
        .ret 1 c' evs' := by
  constructor
  · decide
  · rintro ⟨fuel, c', evs', h⟩
    have h1 : skipHeaderStep freshConn
        [ReadEvent.bytes (strBytes "A\r\n\r"), ReadEvent.bytes (strBytes "\nBODY")] =
        .again ceConn1 [ReadEvent.bytes (strBytes "\nBODY")] := by decide
    have h2 : skipHeaderStep ceConn1 [ReadEvent.bytes (strBytes "\nBODY")] =
        .again ceConn2 [] := by decide
    match fuel with
    | 0 =>
        rw [skipHeaderLoop] at h
        exact absurd h (by simp)
    | 1 =>
        rw [skipHeaderLoop_again 0 h1, skipHeaderLoop] at h
        exact absurd h (by simp)
    | (m + 2) =>
        rw [skipHeaderLoop_again (m + 1) h1, skipHeaderLoop_again m h2] at h
        exact skipHeaderLoop_empty_no_ret m _ (by decide) (by decide) (by decide)
          1 c' evs' h

/-- C2 (confirmed): on a connection with an open socket, http_req_read
returns 0 when the zero-timeout poll reports nothing, leaving the
connection unchanged (socket still open); a hard read error returns -1 and
closes the socket (field set to the closed sentinel 0); afterwards every
call on that connection — and any call on a null connection — returns -1,
so 0 and -1 are distinguishable outcomes. -/
theorem http_req_read_nonblocking (c : Conn) (hs : c.socket ≠ 0) :
    (∀ maxLen evs, http_req_read (some c) maxLen (.noData :: evs) =
      (0, [], some c, evs)) ∧
    (∀ maxLen evs, http_req_read (some c) maxLen (.hardError :: evs) =
      (-1, [], some { c with socket := 0 }, evs)) ∧
    (∀ maxLen evs, http_req_read (some { c with socket := 0 }) maxLen evs =
      (-1, [], some { c with socket := 0 }, evs)) ∧
    (∀ maxLen evs, http_req_read none maxLen evs = (-1, [], none, evs)) := by
  refine ⟨fun maxLen evs => http_req_read_noData c maxLen evs hs,
    fun maxLen evs => by simp [http_req_read, hs],
    fun maxLen evs => by simp [http_req_read],
    fun maxLen evs => rfl⟩

/-- C2 witness: the behaviour at a concrete fresh connection. -/
theorem http_req_read_nonblocking_witness :
    http_req_read (some freshConn) 2048 [.noData] = (0, [], some freshConn, []) ∧
    http_req_read (some freshConn) 2048 [.hardError] =
      (-1, [], some { freshConn with socket := 0 }, []) ∧
    http_req_read (some { freshConn with socket := 0 }) 2048 [.bytes [1, 2]] =
      (-1, [], some { freshConn with socket := 0 }, [.bytes [1, 2]]) ∧
    http_req_read none 2048 [] = (-1, [], none, []) :=
  ⟨(http_req_read_nonblocking freshConn (by decide)).1 2048 [],
   (http_req_read_nonblocking freshConn (by decide)).2.1 2048 [],
   (http_req_read_nonblocking freshConn (by decide)).2.2.1 2048 [.bytes [1, 2]],
   (http_req_read_nonblocking freshConn (by decide)).2.2.2 2048 []⟩

/-- C3 (code bug): when the read primitive signals the hard-error sentinel
-1, http_req_skip_header does NOT return failure: `len` is a `size_t`, so
the -1 is stored as 2^64-1, the `if (len < 0) return 0;` check is dead,
`chunk_len += len` wraps the length to -1, and the following scan runs
with bound `(size_t)chunk_len` = 2^64-1, reading far past the buffer's
valid bytes (undefined behaviour) instead of returning 0. -/
theorem skip_header_hard_error_not_failure :
    (http_req_read (some freshConn) 2048 [ReadEvent.hardError]).1 = -1 ∧
    skipHeaderStep freshConn [ReadEvent.hardError] = .ub ∧
    skipHeaderLoop 1 freshConn [ReadEvent.hardError] = .ub := by
  refine ⟨by decide, by decide, by decide⟩

/-!
## Buffer accessor postconditions
-/

theorem http_req_read_no_error (c : Conn) (maxLen : Nat) (evs : List ReadEvent)
    (hs : c.socket ≠ 0) (hne : ReadEvent.hardError ∉ evs) :
    ∃ dat evs', http_req_read (some c) maxLen evs =
        ((dat.length : Int), dat, some c, evs') ∧
      dat.length ≤ maxLen ∧ ReadEvent.hardError ∉ evs' := by
  match evs with
  | [] => exact ⟨[], [], by simp [http_req_read, hs], by simp, by simp⟩
  | .noData :: rest =>
      exact ⟨[], rest, by simp [http_req_read, hs], by simp,
        fun hm => hne (List.mem_cons_of_mem _ hm)⟩
  | .hardError :: rest => exact absurd (List.mem_cons_self _ _) hne
  | .bytes d :: rest =>
      have hrest : ReadEvent.hardError ∉ rest :=
        fun hm => hne (List.mem_cons_of_mem _ hm)
      by_cases hle : d.length ≤ maxLen
      · exact ⟨d.take maxLen, rest, by simp [http_req_read, hs, hle],
          by simp, hrest⟩
      · refine ⟨d.take maxLen, .bytes (d.drop maxLen) :: rest,
          by simp [http_req_read, hs, hle], by simp, ?_⟩
        intro hm
        rcases List.mem_cons.mp hm with h | h
        · exact absurd h (by simp)
        · exact hrest h

theorem ConnInv_mk (s : Int) (ch : List Nat) (len off : Int)
    (h1 : 0 ≤ off) (h2 : off ≤ len) (h3 : len ≤ 2048) :
    ConnInv { socket := s, chunk := ch, chunk_len := len, chunk_off := off } :=
  ⟨h1, h2, h3⟩

theorem http_req_byte_peek_post (c : Conn) (evs : List ReadEvent) (v : Nat) (r : Conn)
    (e : List ReadEvent) (hInv : ConnInv c) (hs : c.socket ≠ 0)
    (hne : ReadEvent.hardError ∉ evs)
    (hpk : http_req_byte_peek c evs = (v, r, e)) :
    ConnInv r ∧ (v ≠ 0 → r.chunk_off + 1 ≤ r.chunk_len) := by
  obtain ⟨hInv1, hInv2, hInv3⟩ := hInv
  unfold http_req_byte_peek at hpk
  by_cases hg : c.chunk_len = 0 ∨ c.chunk_off + 1 > c.chunk_len
  · rw [if_pos hg] at hpk
    obtain ⟨dat, evs', hrd, hdlen, hne'⟩ := http_req_read_no_error c 2048 evs hs hne
    rw [hrd] at hpk
    simp only [Option.getD_some] at hpk
    split_ifs at hpk with h1 h2
    · exact absurd h1 (by simp)
    · cases hpk
      exact ⟨ConnInv_mk _ _ _ _ (by omega) (by positivity) (by exact_mod_cast hdlen),
        fun hv => absurd rfl hv⟩
    · cases hpk
      have h2a : ¬(((dat.length : Nat) : Int) = 0 ∨ (0 : Int) + 1 > (dat.length : Int)) := h2
      push_neg at h2a
      exact ⟨ConnInv_mk _ _ _ _ (by omega) (by omega) (by exact_mod_cast hdlen),
        fun _ => by show (0 : Int) + 1 ≤ (dat.length : Int); omega⟩
  · rw [if_neg hg] at hpk
    cases hpk
    push_neg at hg
    exact ⟨⟨hInv1, hInv2, hInv3⟩, fun _ => hg.2⟩

theorem http_req_chunk_peek_post (c : Conn) (evs : List ReadEvent)
    (v : Option (List Nat)) (r : Conn) (e : List ReadEvent)
    (hInv : ConnInv c) (hs : c.socket ≠ 0) (hne : ReadEvent.hardError ∉ evs)
    (hpk : http_req_chunk_peek c evs = (v, r, e)) : ConnInv r := by
  obtain ⟨hInv1, hInv2, hInv3⟩ := hInv
  unfold http_req_chunk_peek at hpk
  by_cases hg : c.chunk_len = 0 ∨ c.chunk_off + 1 > c.chunk_len
  · rw [if_pos hg] at hpk
    obtain ⟨dat, evs', hrd, hdlen, hne'⟩ := http_req_read_no_error c 2048 evs hs hne
    rw [hrd] at hpk
    simp only [Option.getD_some] at hpk
    split_ifs at hpk with h1 h2
    · exact absurd h1 (by simp)
    · cases hpk
      exact ConnInv_mk _ _ _ _ (by omega) (by positivity) (by exact_mod_cast hdlen)
    · cases hpk
      exact ConnInv_mk _ _ _ _ (by omega) (by positivity) (by exact_mod_cast hdlen)
  · rw [if_neg hg] at hpk
    cases hpk
    exact ⟨hInv1, hInv2, hInv3⟩

theorem compactConn_len_bounds (c : Conn) (h0 : 0 ≤ c.chunk_len)
    (h1 : c.chunk_len ≤ 2048) :
    0 ≤ (compactConn c).chunk_len ∧ (compactConn c).chunk_len ≤ 2048 := by
  unfold compactConn
  split
  · exact ⟨by norm_num, by norm_num⟩
  · exact ⟨h0, h1⟩

theorem skipHeaderStep_cases (c : Conn) (evs : List ReadEvent)
    (h0 : 0 ≤ c.chunk_len) (h2048 : c.chunk_len ≤ 2048) (hs : c.socket ≠ 0)
    (hne : ReadEvent.hardError ∉ evs) :
    (∃ c' e', skipHeaderStep c evs = .again c' e' ∧ 0 ≤ c'.chunk_len ∧
      c'.chunk_len ≤ 2048 ∧ c'.socket ≠ 0 ∧ ReadEvent.hardError ∉ e') ∨
    (∃ val c' e', skipHeaderStep c evs = .ret val c' e' ∧ ConnInv c') ∨
    skipHeaderStep c evs = .ub := by
  have hp64n : ((2 : Nat) ^ 64) = 18446744073709551616 := by norm_num
  have hp63 : ((2 : Int) ^ 63) = 9223372036854775808 := by norm_num
  unfold skipHeaderStep
  by_cases hbig : 1028 ≤ c.chunk_len
  · rw [if_pos hbig]
    exact Or.inr (Or.inr rfl)
  rw [if_neg hbig]
  obtain ⟨hc0, hc2048⟩ := compactConn_len_bounds c h0 h2048
  have hcs : (compactConn c).socket ≠ 0 := by rw [compactConn_socket]; exact hs
  obtain ⟨dat, evs', hrd, hdlen, hne'⟩ := http_req_read_no_error (compactConn c)
    ((2048 - (compactConn c).chunk_len).toNat) evs hcs hne
  simp only [hrd, Option.getD_some]
  have hdat2048 : dat.length ≤ 2048 := by omega
  have hsz : sizeT ((dat.length : Nat) : Int) = dat.length := sizeT_coe _ (by omega)
  simp only [hsz]
  rw [if_neg (by omega)]
  by_cases hz : dat.length = 0
  · rw [if_pos hz]
    exact Or.inl ⟨_, _, rfl, hc0, hc2048, hcs, hne'⟩
  rw [if_neg hz]
  have hw : wrap64 ((compactConn c).chunk_len + (dat.length : Int)) =
      (compactConn c).chunk_len + dat.length := wrap64_eq _ (by omega) (by omega)
  simp only [hw]
  have hb : sizeT ((compactConn c).chunk_len + (dat.length : Int)) =
      ((compactConn c).chunk_len + (dat.length : Int)).toNat :=
    sizeT_nonneg_toNat _ (by omega) (by omega)
  simp only [hb]
  cases hft : findTerm ((compactConn c).chunk ++ dat)
      (min ((compactConn c).chunk_len + (dat.length : Int)).toNat
        ((compactConn c).chunk ++ dat).length) with
  | some n =>
      simp only [hft]
      obtain ⟨hn3, hnlt, _, _⟩ := findTermAux_some hft
      rw [if_neg (by omega)]
      refine Or.inr (Or.inl ⟨1, _, evs', rfl, ?_⟩)
      exact ConnInv_mk _ _ _ _ (by omega) (by omega) (by omega)
  | none =>
      simp only [hft]
      by_cases hub : ((compactConn c).chunk ++ dat).length <
          ((compactConn c).chunk_len + (dat.length : Int)).toNat
      · rw [if_pos hub]
        exact Or.inr (Or.inr rfl)
      · rw [if_neg hub]
        refine Or.inl ⟨_, evs', rfl, ?_, ?_, hcs, hne'⟩
        · show (0 : Int) ≤ (compactConn c).chunk_len + (dat.length : Int)
          omega
        · show (compactConn c).chunk_len + (dat.length : Int) ≤ 2048
          omega

theorem skipHeaderLoop_inv (fuel : Nat) :
    ∀ (c : Conn) (evs : List ReadEvent), 0 ≤ c.chunk_len → c.chunk_len ≤ 2048 →
    c.socket ≠ 0 → ReadEvent.hardError ∉ evs →
    ∀ v c' e', skipHeaderLoop fuel c evs = .ret v c' e' → ConnInv c' := by
  induction fuel with
  | zero =>
      intro c evs _ _ _ _ v c' e' h
      rw [skipHeaderLoop] at h
      exact absurd h (by simp)
  | succ m ih =>
      intro c evs h0 h2048 hs hne v c' e' h
      rcases skipHeaderStep_cases c evs h0 h2048 hs hne with
        ⟨c2, e2, hstep, hc0, hc2048, hcs, hne2⟩ | ⟨val, c2, e2, hstep, hcInv⟩ | hstep
      · rw [skipHeaderLoop_again m hstep] at h
        exact ih c2 e2 hc0 hc2048 hcs hne2 v c' e' h
      · rw [skipHeaderLoop_one m hstep] at h
        cases h
        exact hcInv
      · rw [skipHeaderLoop, hstep] at h
        exact absurd h (by simp)

theorem http_req_read_conn (c : Conn) (maxLen : Nat) (evs : List ReadEvent) :
    (http_req_read (some c) maxLen evs).2.2.1 = some c ∨
    (http_req_read (some c) maxLen evs).2.2.1 = some { c with socket := 0 } := by
  match evs with
  | [] =>
      by_cases hs0 : c.socket = 0 <;> exact Or.inl (by simp [http_req_read, hs0])
  | .noData :: rest =>
      by_cases hs0 : c.socket = 0 <;> exact Or.inl (by simp [http_req_read, hs0])
  | .hardError :: rest =>
      by_cases hs0 : c.socket = 0
      · exact Or.inl (by simp [http_req_read, hs0])
      · exact Or.inr (by simp [http_req_read, hs0])
  | .bytes d :: rest =>
      by_cases hs0 : c.socket = 0 <;> exact Or.inl (by simp [http_req_read, hs0])

/-- C7 counterexample: the invariant `0 ≤ chunk_off ≤ chunk_len ≤ 2048`
holds on a fresh connection but is NOT preserved by http_req_byte_peek
when the underlying read signals a hard error: `req->chunk_len =
http_req_read(...)` stores the -1 sentinel and the function returns with
`chunk_len = -1` still in place. -/
theorem conn_invariant_counterexample :
    ConnInv freshConn ∧
    ¬ ConnInv (http_req_byte_peek freshConn [ReadEvent.hardError]).2.1 := by
  exact ⟨by decide, by decide⟩

/-- C7 (amended): the invariant `0 ≤ chunk_off ≤ chunk_len ≤ 2048` holds
for a freshly created connection and is preserved by http_req_read
unconditionally, and by http_req_byte_peek, http_req_byte_read,
http_req_chunk_peek, http_req_chunk_read and a returning
http_req_skip_header provided the socket is open and no read signals the
hard-error sentinel (a -1 leaves `chunk_len = -1`, violating the
invariant — see the counterexample). -/
theorem conn_invariant_preservation :
    ConnInv freshConn ∧
    (∀ c maxLen evs c0, ConnInv c →
      (http_req_read (some c) maxLen evs).2.2.1 = some c0 → ConnInv c0) ∧
    (∀ c evs, ConnInv c → c.socket ≠ 0 → ReadEvent.hardError ∉ evs →
      ConnInv (http_req_byte_peek c evs).2.1) ∧
    (∀ c evs, ConnInv c → c.socket ≠ 0 → ReadEvent.hardError ∉ evs →
      ConnInv (http_req_byte_read c evs).2.1) ∧
    (∀ c evs, ConnInv c → c.socket ≠ 0 → ReadEvent.hardError ∉ evs →
      ConnInv (http_req_chunk_peek c evs).2.1) ∧
    (∀ c evs, ConnInv c → c.socket ≠ 0 → ReadEvent.hardError ∉ evs →
      ConnInv (http_req_chunk_read c evs).2.1) ∧
    (∀ fuel c evs v c' e', ConnInv c → c.socket ≠ 0 →
      ReadEvent.hardError ∉ evs →
      skipHeaderLoop fuel c evs = .ret v c' e' → ConnInv c') := by
  refine ⟨by decide, ?_, ?_, ?_, ?_, ?_, ?_⟩
  · intro c maxLen evs c0 hInv hoc
    rcases http_req_read_conn c maxLen evs with h | h <;> rw [h] at hoc <;>
      cases hoc
    · exact hInv
    · exact ⟨hInv.1, hInv.2.1, hInv.2.2⟩
  · intro c evs hInv hs hne
    rcases hpk : http_req_byte_peek c evs with ⟨v, r, e⟩
    exact (http_req_byte_peek_post c evs v r e hInv hs hne hpk).1
  · intro c evs hInv hs hne
    unfold http_req_byte_read
    rcases hpk : http_req_byte_peek c evs with ⟨v, r, e⟩
    dsimp only
    obtain ⟨hrInv, hv⟩ := http_req_byte_peek_post c evs v r e hInv hs hne hpk
    by_cases hz : v = 0
    · rw [if_pos hz]
      exact hrInv
    · rw [if_neg hz]
      refine ⟨?_, ?_, hrInv.2.2⟩
      · show (0 : Int) ≤ r.chunk_off + 1
        have := hrInv.1
        omega
      · show r.chunk_off + 1 ≤ r.chunk_len
        exact hv hz
  · intro c evs hInv hs hne
    rcases hpk : http_req_chunk_peek c evs with ⟨v, r, e⟩
    exact http_req_chunk_peek_post c evs v r e hInv hs hne hpk
  · intro c evs hInv hs hne
    unfold http_req_chunk_read
    rcases hpk : http_req_chunk_peek c evs with ⟨v, r, e⟩
    have hrInv := http_req_chunk_peek_post c evs v r e hInv hs hne hpk
    match v with
    | none => exact hrInv
    | some ch =>
        refine ⟨?_, ?_, hrInv.2.2⟩
        · show (0 : Int) ≤ r.chunk_len
          have h1 := hrInv.1
          have h2 := hrInv.2.1
          omega
        · show r.chunk_len ≤ r.chunk_len
          exact le_refl _
  · intro fuel c evs v c' e' hInv hs hne hloop
    refine skipHeaderLoop_inv fuel c evs ?_ hInv.2.2 hs hne v c' e' hloop
    have h1 := hInv.1
    have h2 := hInv.2.1
    omega

/-- C7 witness: concrete instances of each preserved operation. -/
theorem conn_invariant_preservation_witness :
    ConnInv freshConn ∧
    ConnInv (http_req_byte_peek freshConn [ReadEvent.bytes [72, 73]]).2.1 ∧
    ConnInv (http_req_byte_read freshConn [ReadEvent.bytes [72, 73]]).2.1 ∧
    ConnInv (http_req_chunk_peek freshConn [ReadEvent.noData]).2.1 ∧
    ConnInv (http_req_chunk_read freshConn [ReadEvent.noData]).2.1 ∧
    ConnInv { socket := 1, chunk := [121], chunk_len := 1, chunk_off := 0 } :=
  ⟨conn_invariant_preservation.1,
   conn_invariant_preservation.2.2.1 freshConn _ (by decide) (by decide) (by decide),
   conn_invariant_preservation.2.2.2.1 freshConn _ (by decide) (by decide) (by decide),
   conn_invariant_preservation.2.2.2.2.1 freshConn _ (by decide) (by decide) (by decide),
   conn_invariant_preservation.2.2.2.2.2.1 freshConn _ (by decide) (by decide) (by decide),
   conn_invariant_preservation.2.2.2.2.2.2 1 freshConn
     [ReadEvent.bytes (strBytes "x\r\n\r\ny")] 1
     { socket := 1, chunk := [121], chunk_len := 1, chunk_off := 0 } []
     (by decide) (by decide) (by decide) (by decide)⟩

theorem http_req_byte_peek_value (c : Conn) (evs : List ReadEvent) (v : Nat)
    (r : Conn) (e : List ReadEvent)
    (hpk : http_req_byte_peek c evs = (v, r, e)) (hv : v ≠ 0) :
    ¬(r.chunk_len = 0 ∨ r.chunk_off + 1 > r.chunk_len) ∧
    v = r.chunk.getD r.chunk_off.toNat 0 := by
  unfold http_req_byte_peek at hpk
  by_cases hg : c.chunk_len = 0 ∨ c.chunk_off + 1 > c.chunk_len
  · rw [if_pos hg] at hpk
    rcases hrd : http_req_read (some c) 2048 evs with ⟨retv, dat, oc, evs'⟩
    rw [hrd] at hpk
    dsimp only at hpk
    split_ifs at hpk with h1 h2
    · cases hpk
      exact absurd rfl hv
    · cases hpk
      exact absurd rfl hv
    · cases hpk
      exact ⟨h2, rfl⟩
  · rw [if_neg hg] at hpk
    cases hpk
    exact ⟨hg, rfl⟩

/-- C10 (amended): a nonzero result of http_req_byte_peek is stable — the
connection state it returns makes an immediately repeated peek return the
same byte with the same state (a peek returning 0 for lack of data is NOT
stable: newly arrived bytes can make the next peek return them, and a
refill resets `chunk_off` to 0, though it never skips unconsumed bytes);
http_req_byte_read returns exactly the value http_req_byte_peek returns,
advancing `chunk_off` by one exactly when that value is nonzero; a literal
0x00 byte under the cursor is returned as the sentinel 0 by both, is never
consumed, and leaves the connection untouched — indistinguishable from "no
byte available". -/
theorem byte_peek_read_relation :
    (∀ c evs v r e, http_req_byte_peek c evs = (v, r, e) → v ≠ 0 →
      http_req_byte_peek r e = (v, r, e)) ∧
    (∀ c evs v r e, http_req_byte_peek c evs = (v, r, e) →
      http_req_byte_read c evs =
        (v, if v = 0 then r else { r with chunk_off := r.chunk_off + 1 }, e)) ∧
    (∀ c evs, ConnInv c → c.chunk_off < c.chunk_len →
      c.chunk.getD c.chunk_off.toNat 0 = 0 →
      http_req_byte_peek c evs = (0, c, evs) ∧
      http_req_byte_read c evs = (0, c, evs)) := by
  refine ⟨?_, ?_, ?_⟩
  · intro c evs v r e hpk hv
    obtain ⟨hg, hval⟩ := http_req_byte_peek_value c evs v r e hpk hv
    unfold http_req_byte_peek
    rw [if_neg hg, ← hval]
  · intro c evs v r e hpk
    unfold http_req_byte_read
    rw [hpk]
    dsimp only
    by_cases hz : v = 0 <;> simp [hz]
  · intro c evs hInv hoff hzero
    have hg : ¬(c.chunk_len = 0 ∨ c.chunk_off + 1 > c.chunk_len) := by
      push_neg
      constructor
      · have := hInv.1
        omega
      · omega
    have hpk : http_req_byte_peek c evs = (0, c, evs) := by
      unfold http_req_byte_peek
      rw [if_neg hg, hzero]
    refine ⟨hpk, ?_⟩
    unfold http_req_byte_read
    rw [hpk]
    dsimp only
    simp

/-- C10 counterexample: two consecutive peeks with no intervening
byte_read returning different values — the first peek polls during a
no-data window and returns 0, the second sees the newly arrived byte. -/
theorem byte_peek_consecutive_counterexample :
    (http_req_byte_peek freshConn [ReadEvent.noData, ReadEvent.bytes [72]]).1 = 0 ∧
    (http_req_byte_peek
      (http_req_byte_peek freshConn [ReadEvent.noData, ReadEvent.bytes [72]]).2.1
      (http_req_byte_peek freshConn [ReadEvent.noData, ReadEvent.bytes [72]]).2.2).1
      = 72 := ⟨by decide, by decide⟩

/-- C10 witness: concrete instances — a nonzero peek is repeatable, read
advances past it, and a 0x00 byte is returned as 0 without consumption. -/
theorem byte_peek_read_relation_witness :
    http_req_byte_peek { socket := 1, chunk := [72], chunk_len := 1, chunk_off := 0 } [] =
      (72, { socket := 1, chunk := [72], chunk_len := 1, chunk_off := 0 }, []) ∧
    http_req_byte_read freshConn [ReadEvent.bytes [72]] =
      (72, { socket := 1, chunk := [72], chunk_len := 1, chunk_off := 1 }, []) ∧
    http_req_byte_peek { socket := 1, chunk := [0, 65], chunk_len := 2, chunk_off := 0 } [] =
      (0, { socket := 1, chunk := [0, 65], chunk_len := 2, chunk_off := 0 }, []) :=
  ⟨byte_peek_read_relation.1 freshConn [ReadEvent.bytes [72]] 72
      { socket := 1, chunk := [72], chunk_len := 1, chunk_off := 0 } [] (by decide) (by decide),
   byte_peek_read_relation.2.1 freshConn [ReadEvent.bytes [72]] 72
      { socket := 1, chunk := [72], chunk_len := 1, chunk_off := 0 } [] (by decide),
   (byte_peek_read_relation.2.2 { socket := 1, chunk := [0, 65], chunk_len := 2, chunk_off := 0 }
      [] (by decide) (by decide) (by decide)).1⟩

/-- C8 (confirmed): the icon computed after extraction is a pure function
of (weather_id, night): ids in [200,399] and [500,599] map to rain,
[600,699] to snow, [801,804] to clouds, and everything else to moon at
night and sun by day — including each listed boundary value. -/
theorem weather_icon_mapping :
    (∀ toks f, (fetch_weather_parse toks f).icon =
      icon_for (fetch_weather_parse toks f).weather_id
        (fetch_weather_parse toks f).night) ∧
    (∀ id n, ((200 ≤ id ∧ id ≤ 399) ∨ (500 ≤ id ∧ id ≤ 599)) →
      icon_for id n = .rain) ∧
    (∀ id n, 600 ≤ id ∧ id ≤ 699 → icon_for id n = .snow) ∧
    (∀ id n, 801 ≤ id ∧ id ≤ 804 → icon_for id n = .clouds) ∧
    (∀ id n, ¬((200 ≤ id ∧ id ≤ 399) ∨ (500 ≤ id ∧ id ≤ 599) ∨
        (600 ≤ id ∧ id ≤ 699) ∨ (801 ≤ id ∧ id ≤ 804)) →
      icon_for id n = if n then .moon else .sun) ∧
    (icon_for 199 false = .sun ∧ icon_for 199 true = .moon ∧
     icon_for 200 true = .rain ∧ icon_for 399 false = .rain ∧
     icon_for 400 false = .sun ∧ icon_for 400 true = .moon ∧
     icon_for 500 true = .rain ∧ icon_for 599 false = .rain ∧
     icon_for 600 true = .snow ∧ icon_for 699 false = .snow ∧
     icon_for 700 false = .sun ∧ icon_for 700 true = .moon ∧
     icon_for 801 true = .clouds ∧ icon_for 804 false = .clouds ∧
     icon_for 805 false = .sun ∧ icon_for 805 true = .moon) := by
  refine ⟨fun toks f => rfl, ?_, ?_, ?_, ?_, by decide⟩
  · intro id n h
    unfold icon_for
    rcases h with h | h
    · rw [if_pos h]
    · rw [if_neg (by omega), if_pos h]
  · intro id n h
    unfold icon_for
    rw [if_neg (by omega), if_neg (by omega), if_pos h]
  · intro id n h
    unfold icon_for
    rw [if_neg (by omega), if_neg (by omega), if_neg (by omega), if_pos h]
  · intro id n h
    push_neg at h
    unfold icon_for
    rw [if_neg (by omega), if_neg (by omega), if_neg (by omega), if_neg (by omega)]

/-- C8 witness: sample points in each bucket. -/
theorem weather_icon_mapping_witness :
    icon_for 250 false = .rain ∧ icon_for 550 true = .rain ∧
    icon_for 650 false = .snow ∧ icon_for 802 true = .clouds ∧
    icon_for 800 true = .moon ∧ icon_for 800 false = .sun ∧
    (fetch_weather_parse [] true).icon =
      icon_for (fetch_weather_parse [] true).weather_id
        (fetch_weather_parse [] true).night :=
  ⟨weather_icon_mapping.2.1 250 false (Or.inl (by norm_num)),
   weather_icon_mapping.2.1 550 true (Or.inr (by norm_num)),
   weather_icon_mapping.2.2.1 650 false (by norm_num),
   weather_icon_mapping.2.2.2.1 802 true (by norm_num),
   weather_icon_mapping.2.2.2.2.1 800 true (by norm_num),
   weather_icon_mapping.2.2.2.2.1 800 false (by norm_num),
   weather_icon_mapping.1 [] true⟩


/-- C9 counterexample: on the token stream `"weather"`, `"description"`,
ObjectEnd, the code's machine copies the stale `str` — the key
"description" itself, capitalized — into the conditions buffer, because
STATE_IN_WEATHER_DESC performs its strlcpy without checking the token
type; the machine described by the claim captures nothing there. -/
theorem fetch_state_machine_counterexample :
    (runWith fwStep initAcc [JToken.jstring (strBytes "weather"),
      JToken.jstring (strBytes "description"), JToken.objectEnd]).conditions =
      strBytes "Description" ∧
    (runWith fwStepClaim initAcc [JToken.jstring (strBytes "weather"),
      JToken.jstring (strBytes "description"), JToken.objectEnd]).conditions =
      failSentinel ∧
    runWith fwStep initAcc [JToken.jstring (strBytes "weather"),
      JToken.jstring (strBytes "description"), JToken.objectEnd] ≠
    runWith fwStepClaim initAcc [JToken.jstring (strBytes "weather"),
      JToken.jstring (strBytes "description"), JToken.objectEnd] := by
  exact ⟨by decide, by decide, by decide⟩



/-- C9 (amended): the code's field-extraction machine follows exactly the
claimed transitions, except that the description sub-state always copies
the most recently seen string (the key "description" itself when the
following token is not a string), truncated to 99 bytes with its first
byte upper-cased; every other rule is as claimed: key recognition from
BEGIN and IN_WEATHER, ObjectEnd returning IN_WEATHER to BEGIN, the id /
icon / temp sub-states capturing a suitably-typed next token and falling
back to their parent state, the night flag set exactly when the icon
text's third byte is 'n', and unrecognized tokens changing nothing
observable. -/
theorem fetch_state_machine_transitions :
    (∀ a, a.state = .stBegin →
      fwStep a (.jstring (strBytes "weather")) =
        { a with str := strBytes "weather", state := .stInWeather } ∧
      fwStep a (.jstring (strBytes "main")) =
        { a with str := strBytes "main", state := .stInMain }) ∧
    (∀ a jt, a.state = .stBegin → jt ≠ .jstring (strBytes "weather") →
      jt ≠ .jstring (strBytes "main") →
      (fwStep a jt).state = .stBegin ∧ obsAcc (fwStep a jt) = obsAcc a) ∧
    (∀ a, a.state = .stInWeather →
      fwStep a (.jstring (strBytes "id")) =
        { a with str := strBytes "id", state := .stInWeatherId } ∧
      fwStep a (.jstring (strBytes "description")) =
        { a with str := strBytes "description", state := .stInWeatherDesc } ∧
      fwStep a (.jstring (strBytes "icon")) =
        { a with str := strBytes "icon", state := .stInWeatherIcon } ∧
      fwStep a .objectEnd = { a with state := .stBegin }) ∧
    (∀ a jt, a.state = .stInWeather → jt ≠ .jstring (strBytes "id") →
      jt ≠ .jstring (strBytes "description") → jt ≠ .jstring (strBytes "icon") →
      jt ≠ .objectEnd →
      (fwStep a jt).state = .stInWeather ∧ obsAcc (fwStep a jt) = obsAcc a) ∧
    (∀ a, a.state = .stInWeatherId →
      (∀ n, fwStep a (.jnumber n) =
        { a with weather_id := n, state := .stInWeather }) ∧
      (∀ jt, (∀ n, jt ≠ .jnumber n) →
        (fwStep a jt).state = .stInWeather ∧ obsAcc (fwStep a jt) = obsAcc a)) ∧
    (∀ a, a.state = .stInWeatherIcon →
      (∀ s, fwStep a (.jstring s) =
        { a with str := s, night := s.getD 2 0 = 110, state := .stInWeather }) ∧
      (∀ jt, (∀ s, jt ≠ .jstring s) →
        (fwStep a jt).state = .stInWeather ∧ obsAcc (fwStep a jt) = obsAcc a)) ∧
    (∀ a, a.state = .stInWeatherDesc →
      (∀ s, fwStep a (.jstring s) =
        { a with
          str := s,
          conditions := capitalizeFirst (s.take 99),
          state := .stInWeather }) ∧
      (∀ jt, (∀ s, jt ≠ .jstring s) →
        fwStep a jt =
          { a with
            conditions := capitalizeFirst (a.str.take 99),
            state := .stInWeather })) ∧
    (∀ a, a.state = .stInMain →
      fwStep a (.jstring (strBytes "temp")) =
        { a with str := strBytes "temp", state := .stInMainTemp } ∧
      (∀ jt, jt ≠ .jstring (strBytes "temp") →
        (fwStep a jt).state = .stInMain ∧ obsAcc (fwStep a jt) = obsAcc a)) ∧
    (∀ a, a.state = .stInMainTemp →
      (∀ n, fwStep a (.jnumber n) = { a with temp := n, state := .stInMain }) ∧
      (∀ jt, (∀ n, jt ≠ .jnumber n) →
        (fwStep a jt).state = .stInMain ∧ obsAcc (fwStep a jt) = obsAcc a)) := by
  refine ⟨?_, ?_, ?_, ?_, ?_, ?_, ?_, ?_, ?_⟩
  · intro a h
    constructor <;> simp +decide [fwStep, h]
  · intro a jt h h1 h2
    cases jt <;> simp_all +decide [fwStep, obsAcc]
  · intro a h
    refine ⟨?_, ?_, ?_, ?_⟩ <;> simp +decide [fwStep, h]
  · intro a jt h h1 h2 h3 h4
    cases jt <;> simp_all +decide [fwStep, obsAcc]
  · intro a h
    constructor
    · intro n
      simp +decide [fwStep, h]
    · intro jt hn
      cases jt <;> simp_all +decide [fwStep, obsAcc]
  · intro a h
    constructor
    · intro s
      simp +decide [fwStep, h]
    · intro jt hn
      cases jt <;> simp_all +decide [fwStep, obsAcc]
  · intro a h
    constructor
    · intro s
      simp +decide [fwStep, h]
    · intro jt hn
      cases jt <;> simp_all +decide [fwStep, obsAcc]
  · intro a h
    constructor
    · simp +decide [fwStep, h]
    · intro jt hn
      cases jt <;> simp_all +decide [fwStep, obsAcc]
  · intro a h
    constructor
    · intro n
      simp +decide [fwStep, h]
    · intro jt hn
      cases jt <;> simp_all +decide [fwStep, obsAcc]

/-- C9 witness: the "weather" key recognized from BEGIN, and the stale
capture of the description sub-state on a non-string token. -/
theorem fetch_state_machine_transitions_witness :
    fwStep initAcc (.jstring (strBytes "weather")) =
      { initAcc with str := strBytes "weather", state := .stInWeather } ∧
    (fwStep { initAcc with str := strBytes "description", state := .stInWeatherDesc }
      .objectEnd).conditions = strBytes "Description" := by
  constructor
  · exact (fetch_state_machine_transitions.1 initAcc rfl).1
  · have h := (fetch_state_machine_transitions.2.2.2.2.2.2.1
      { initAcc with str := strBytes "description", state := .stInWeatherDesc } rfl).2
      JToken.objectEnd (fun s hh => JToken.noConfusion hh)
    rw [h]
    decide

theorem fwStep_conditions (a : FWAcc) (jt : JToken)
    (h : a.state ≠ .stInWeatherDesc) : (fwStep a jt).conditions = a.conditions := by
  cases hst : a.state <;> cases jt <;>
    simp_all +decide [fwStep] <;> split_ifs <;> rfl

theorem fwStep_not_desc (a : FWAcc) (jt : JToken)
    (h : a.state ≠ .stInWeatherDesc)
    (hjt : jt ≠ .jstring (strBytes "description")) :
    (fwStep a jt).state ≠ .stInWeatherDesc := by
  cases hst : a.state <;> cases jt <;>
    simp_all +decide [fwStep] <;> split_ifs <;> simp_all

theorem runTokens_no_desc (toks : List JToken)
    (hnd : JToken.jstring (strBytes "description") ∉ toks) :
    ∀ a : FWAcc, a.state ≠ .stInWeatherDesc →
      (runTokens a toks).conditions = a.conditions := by
  induction toks with
  | nil => intro a _; rfl
  | cons jt rest ih =>
      intro a ha
      have hjt : jt ≠ .jstring (strBytes "description") :=
        fun hh => hnd (hh ▸ List.mem_cons_self _ _)
      have hrest : JToken.jstring (strBytes "description") ∉ rest :=
        fun hm => hnd (List.mem_cons_of_mem _ hm)
      unfold runTokens runWith
      by_cases hstop : jt = .jdone ∨ jt = .jerror
      · rw [if_pos hstop]
      · rw [if_neg hstop]
        have := ih hrest (fwStep a jt) (fwStep_not_desc a jt ha hjt)
        rw [show runWith fwStep (fwStep a jt) rest = runTokens (fwStep a jt) rest from rfl,
          this, fwStep_conditions a jt ha]

/-- C4 counterexample: on the token stream consisting of a single Error
token, fetch_weather does NOT report the fetch as failed — it falls out of
the token loop, appends the temperature suffix, selects an icon and
returns 0 exactly as on success; and current_conditions does not equal the
bare sentinel (the `", 0°F"` suffix has been appended to it).  By
contrast, the transport-failure paths return 1 and never touch
current_conditions. -/
theorem fetch_weather_error_counterexample :
    endsInError [JToken.jerror] = true ∧
    (fetch_weather_parse [JToken.jerror] true).ret = 0 ∧
    ¬ (fetch_weather_parse [JToken.jerror] true).ret = 1 ∧
    ¬ (fetch_weather_parse [JToken.jerror] true).conditions = failSentinel := by
  exact ⟨by decide, by decide, by decide, by decide⟩

/-- C4 (amended): on every token stream whose traversal ends in the
parser's Error state, fetch_weather still returns 0 (success) to its
caller — a parse error is not reported, unlike a transport failure, which
returns 1; the "(Failed to parse API response)" sentinel — installed
before the pass and with the temperature suffix appended after it —
remains in current_conditions exactly when no description was captured
before the error (in particular whenever no string token equal to
"description" occurs). -/
theorem fetch_weather_error_result (toks : List JToken) (f : Bool)
    (_herr : endsInError toks = true) :
    (fetch_weather_parse toks f).ret = 0 ∧
    (JToken.jstring (strBytes "description") ∉ toks →
      (fetch_weather_parse toks f).conditions =
        (failSentinel ++
          tempSuffix (fetch_weather_parse toks f).current_temp f).take 99) := by
  constructor
  · rfl
  · intro hnd
    show ((runTokens initAcc toks).conditions ++
        tempSuffix (runTokens initAcc toks).temp f).take 99 = _
    rw [runTokens_no_desc toks hnd initAcc (by decide)]
    rfl

/-- C4 witness: the single-Error-token stream. -/
theorem fetch_weather_error_result_witness :
    endsInError [JToken.jerror] = true ∧
    (fetch_weather_parse [JToken.jerror] true).ret = 0 ∧
    (fetch_weather_parse [JToken.jerror] true).conditions =
      (failSentinel ++
        tempSuffix (fetch_weather_parse [JToken.jerror] true).current_temp
          true).take 99 :=
  ⟨by decide, (fetch_weather_error_result [JToken.jerror] true (by decide)).1,
   (fetch_weather_error_result [JToken.jerror] true (by decide)).2 (by decide)⟩

/-!
## Scanner evaluation lemmas for url_parse
-/

theorem takeWhile_middle {p : Nat → Bool} (u : List Nat) (a : Nat) (v : List Nat)
    (hu : ∀ c ∈ u, p c = true) (ha : p a = false) :
    (u ++ a :: v).takeWhile p = u := by
  induction u with
  | nil => simp [List.takeWhile_cons, ha]
  | cons x t ih =>
      have hx : p x = true := hu x (List.mem_cons_self _ _)
      simp [List.takeWhile_cons, hx,
        ih (fun c hc => hu c (List.mem_cons_of_mem _ hc))]

theorem takeWhile_all {p : Nat → Bool} (u : List Nat)
    (hu : ∀ c ∈ u, p c = true) : u.takeWhile p = u :=
  List.takeWhile_eq_self_iff.mpr hu

theorem dropWhile_cons_false {p : Nat → Bool} (a : Nat) (v : List Nat)
    (ha : p a = false) : (a :: v).dropWhile p = a :: v := by
  simp [List.dropWhile_cons, ha]

theorem scanNotChar_stop (k : Nat) (u v : List Nat) (hu : u ≠ []) (hk : k ∉ u) :
    scanNotChar k (u ++ k :: v) = some (u, k :: v) := by
  unfold scanNotChar
  have ht : (u ++ k :: v).takeWhile (fun c => c != k) = u :=
    takeWhile_middle u k v
      (fun c hc => by
        simp only [bne_iff_ne, ne_eq, decide_eq_true_eq]
        exact fun hck => hk (hck ▸ hc))
      (by simp)
  rw [ht, if_neg hu, List.drop_left]

theorem scanNotChar_all (k : Nat) (u : List Nat) (hu : u ≠ []) (hk : k ∉ u) :
    scanNotChar k u = some (u, []) := by
  unfold scanNotChar
  have ht : u.takeWhile (fun c => c != k) = u :=
    takeWhile_all u (fun c hc => by
      simp only [bne_iff_ne, ne_eq, decide_eq_true_eq]
      exact fun hck => hk (hck ▸ hc))
  rw [ht, if_neg hu, List.drop_length]

theorem scanLit_cons (k : Nat) (v : List Nat) : scanLit k (k :: v) = some v := by
  simp [scanLit]

theorem scanLit_nil (k : Nat) : scanLit k [] = none := rfl

theorem scanS_all (p : List Nat) (hne : p ≠ [])
    (hns : ∀ c ∈ p, isSpaceB c = false) : scanS p = some (p, []) := by
  unfold scanS
  have hd : p.dropWhile isSpaceB = p := by
    match p with
    | [] => rfl
    | a :: t => exact dropWhile_cons_false a t (hns a (List.mem_cons_self _ _))
  have ht : p.takeWhile (fun c => !isSpaceB c) = p :=
    takeWhile_all p (fun c hc => by simp [hns c hc])
  simp only [hd, ht]
  rw [if_neg hne, List.drop_length]

theorem scanS_nil : scanS [] = none := rfl

theorem isSpaceB_of_digit (c : Nat) (h : isDigitB c = true) : isSpaceB c = false := by
  simp only [isDigitB, Bool.and_eq_true, decide_eq_true_eq] at h
  simp only [isSpaceB, Bool.or_eq_false_iff, Bool.and_eq_false_iff,
    decide_eq_false_iff_not]
  omega

theorem scanU_digits (ds p : List Nat) (hne : ds ≠ [])
    (hds : ∀ c ∈ ds, isDigitB c = true)
    (hp : p = [] ∨ ∃ t, p = 47 :: t) :
    scanU (ds ++ p) = some (natOfDigits ds, p) := by
  unfold scanU
  have hd : (ds ++ p).dropWhile isSpaceB = ds ++ p := by
    match ds, hne with
    | a :: t, _ =>
        exact dropWhile_cons_false a (t ++ p)
          (isSpaceB_of_digit a (hds a (List.mem_cons_self _ _)))
  have ht : (ds ++ p).takeWhile isDigitB = ds := by
    rcases hp with rfl | ⟨t, rfl⟩
    · rw [List.append_nil]
      exact takeWhile_all ds hds
    · exact takeWhile_middle ds 47 t hds (by decide)
  simp only [hd, ht]
  rw [if_neg hne, List.drop_left]

theorem sscanf_with_port_eval (sc h ds p : List Nat)
    (hsc : sc ≠ []) (hsc2 : 58 ∉ sc) (hh : h ≠ []) (hh2 : 58 ∉ h)
    (hds : ds ≠ []) (hds2 : ∀ c ∈ ds, isDigitB c = true)
    (hp : ∃ t, p = 47 :: t) (hp2 : ∀ c ∈ p, isSpaceB c = false) :
    sscanf_url_with_port (sc ++ 58 :: 47 :: 47 :: (h ++ 58 :: (ds ++ p))) =
      some (sc, h, natOfDigits ds, p,
        (sc ++ 58 :: 47 :: 47 :: (h ++ 58 :: (ds ++ p))).length) := by
  have hpne : p ≠ [] := by
    obtain ⟨t, rfl⟩ := hp
    simp
  simp only [sscanf_url_with_port,
    scanNotChar_stop 58 sc (47 :: 47 :: (h ++ 58 :: (ds ++ p))) hsc hsc2,
    scanLit_cons,
    scanNotChar_stop 58 h (ds ++ p) hh hh2,
    scanU_digits ds p hds hds2 (Or.inr hp),
    scanS_all p hpne hp2,
    List.length_nil, Nat.sub_zero]

theorem sscanf_no_port_fails (sc h p : List Nat)
    (hsc : sc ≠ []) (hsc2 : 58 ∉ sc) (hh : h ≠ []) (hh2 : 58 ∉ h) (hh3 : 47 ∉ h)
    (hp : ∃ t, p = 47 :: t) (hp2 : ∀ c ∈ p, isSpaceB c = false) (hp3 : 58 ∉ p) :
    sscanf_url_with_port (sc ++ 58 :: 47 :: 47 :: (h ++ p)) = none ∧
    sscanf_url_no_port (sc ++ 58 :: 47 :: 47 :: (h ++ p)) =
      some (sc, h, p, (sc ++ 58 :: 47 :: 47 :: (h ++ p)).length) := by
  have hpne : p ≠ [] := by
    obtain ⟨t, rfl⟩ := hp
    simp
  have hhp58 : 58 ∉ h ++ p := by
    intro hm
    rcases List.mem_append.mp hm with hm | hm
    · exact hh2 hm
    · exact hp3 hm
  have hhpne : h ++ p ≠ [] := by
    simp [hh]
  constructor
  · simp only [sscanf_url_with_port,
      scanNotChar_stop 58 sc (47 :: 47 :: (h ++ p)) hsc hsc2,
      scanLit_cons,
      scanNotChar_all 58 (h ++ p) hhpne hhp58,
      scanLit_nil]
  · obtain ⟨t, rfl⟩ := hp
    simp only [sscanf_url_no_port,
      scanNotChar_stop 58 sc (47 :: 47 :: (h ++ 47 :: t)) hsc hsc2,
      scanLit_cons,
      scanNotChar_stop 47 h t hh hh3,
      scanS_all (47 :: t) (by simp) hp2,
      List.length_nil, Nat.sub_zero]

theorem url_parse_with_port_eval (sc h ds p : List Nat)
    (hsc : sc ≠ []) (hsc2 : 58 ∉ sc) (hh : h ≠ []) (hh2 : 58 ∉ h)
    (hds : ds ≠ []) (hds2 : ∀ c ∈ ds, isDigitB c = true)
    (hp : ∃ t, p = 47 :: t) (hp2 : ∀ c ∈ p, isSpaceB c = false) :
    url_parse (sc ++ strBytes "://" ++ h ++ strBytes ":" ++ ds ++ p) =
      some { scheme := sc, host := h, port := natOfDigits ds % 65536, path := p } := by
  have hin : sc ++ strBytes "://" ++ h ++ strBytes ":" ++ ds ++ p =
      sc ++ 58 :: 47 :: 47 :: (h ++ 58 :: (ds ++ p)) := by
    have e1 : strBytes "://" = [58, 47, 47] := by decide
    have e2 : strBytes ":" = [58] := by decide
    rw [e1, e2]
    simp [List.append_assoc]
  rw [hin]
  have hmain := sscanf_with_port_eval sc h ds p hsc hsc2 hh hh2 hds hds2 hp hp2
  simp only [url_parse, hmain]
  rw [if_neg (by omega)]

theorem url_parse_no_port_eval (sc h p : List Nat)
    (hsc : sc ≠ []) (hsc2 : 58 ∉ sc) (hh : h ≠ []) (hh2 : 58 ∉ h) (hh3 : 47 ∉ h)
    (hp : ∃ t, p = 47 :: t) (hp2 : ∀ c ∈ p, isSpaceB c = false) (hp3 : 58 ∉ p) :
    url_parse (sc ++ strBytes "://" ++ h ++ p) =
      (if sc = strBytes "http" then
        some { scheme := sc, host := h, port := 80, path := p }
      else if sc = strBytes "https" then
        some { scheme := sc, host := h, port := 443, path := p }
      else none) := by
  have hin : sc ++ strBytes "://" ++ h ++ p =
      sc ++ 58 :: 47 :: 47 :: (h ++ p) := by
    have e1 : strBytes "://" = [58, 47, 47] := by decide
    rw [e1]
    simp [List.append_assoc]
  rw [hin]
  obtain ⟨hfail, hok⟩ := sscanf_no_port_fails sc h p hsc hsc2 hh hh2 hh3 hp hp2 hp3
  simp only [url_parse, hfail, hok]
  rw [if_neg (by omega)]

theorem url_parse_no_colon (s : List Nat) (h : 58 ∉ s) : url_parse s = none := by
  by_cases hne : s = []
  · subst hne; rfl
  · have h1 : scanNotChar 58 s = some (s, []) := scanNotChar_all 58 s hne h
    simp only [url_parse, sscanf_url_with_port, sscanf_url_no_port, h1, scanLit_nil]

theorem url_parse_missing_path (sc h : List Nat)
    (hsc : sc ≠ []) (hsc2 : 58 ∉ sc) (hh : h ≠ []) (hh2 : 58 ∉ h) (hh3 : 47 ∉ h) :
    url_parse (sc ++ strBytes "://" ++ h) = none := by
  have hin : sc ++ strBytes "://" ++ h = sc ++ 58 :: 47 :: 47 :: h := by
    have e1 : strBytes "://" = [58, 47, 47] := by decide
    rw [e1]
    simp [List.append_assoc]
  rw [hin]
  simp only [url_parse, sscanf_url_with_port, sscanf_url_no_port,
    scanNotChar_stop 58 sc (47 :: 47 :: h) hsc hsc2,
    scanLit_cons,
    scanNotChar_all 58 h hh hh2,
    scanNotChar_all 47 h hh hh3,
    scanLit_nil, scanS_nil]

/-- C5 (amended): well-formed `scheme://host:port/path` inputs (scheme
nonempty and colon-free; host nonempty and free of ':', '/' and
whitespace; port a plain decimal at most 65535; path beginning '/' and
whitespace-free) round-trip scheme/host/port/path exactly — with ANY
scheme; well-formed `scheme://host/path` inputs whose path is besides
colon-free round-trip with the default port 80/443 when the scheme is
exactly "http"/"https", and yield null for any other scheme; inputs
without a ':' anywhere, and inputs missing the path, yield null.
(A ':' in the path of the port-less form can make the explicit-port scan
succeed instead, and embedded whitespace truncates rather than fails —
see the counterexample.) -/
theorem url_parse_spec :
    (∀ sc h ds p, sc ≠ [] → 58 ∉ sc →
      h ≠ [] → 58 ∉ h → 47 ∉ h → (∀ c ∈ h, isSpaceB c = false) →
      ds ≠ [] → (∀ c ∈ ds, isDigitB c = true) → natOfDigits ds < 65536 →
      (∃ t, p = 47 :: t) → (∀ c ∈ p, isSpaceB c = false) →
      url_parse (sc ++ strBytes "://" ++ h ++ strBytes ":" ++ ds ++ p) =
        some { scheme := sc, host := h, port := natOfDigits ds, path := p }) ∧
    (∀ h p, h ≠ [] → 58 ∉ h → 47 ∉ h → (∀ c ∈ h, isSpaceB c = false) →
      (∃ t, p = 47 :: t) → (∀ c ∈ p, isSpaceB c = false) → 58 ∉ p →
      url_parse (strBytes "http" ++ strBytes "://" ++ h ++ p) =
        some { scheme := strBytes "http", host := h, port := 80, path := p } ∧
      url_parse (strBytes "https" ++ strBytes "://" ++ h ++ p) =
        some { scheme := strBytes "https", host := h, port := 443, path := p }) ∧
    (∀ sc h p, sc ≠ [] → 58 ∉ sc → sc ≠ strBytes "http" → sc ≠ strBytes "https" →
      h ≠ [] → 58 ∉ h → 47 ∉ h →
      (∃ t, p = 47 :: t) → (∀ c ∈ p, isSpaceB c = false) → 58 ∉ p →
      url_parse (sc ++ strBytes "://" ++ h ++ p) = none) ∧
    (∀ s, 58 ∉ s → url_parse s = none) ∧
    (∀ sc h, sc ≠ [] → 58 ∉ sc → h ≠ [] → 58 ∉ h → 47 ∉ h →
      url_parse (sc ++ strBytes "://" ++ h) = none) := by
  refine ⟨?_, ?_, ?_, url_parse_no_colon, url_parse_missing_path⟩
  · intro sc h ds p hsc hsc2 hh hh2 _ _ hds hds2 hport hp hp2
    rw [url_parse_with_port_eval sc h ds p hsc hsc2 hh hh2 hds hds2 hp hp2,
      Nat.mod_eq_of_lt hport]
  · intro h p hh hh2 hh3 _ hp hp2 hp3
    constructor
    · rw [url_parse_no_port_eval (strBytes "http") h p (by decide) (by decide)
        hh hh2 hh3 hp hp2 hp3]
      rw [if_pos rfl]
    · rw [url_parse_no_port_eval (strBytes "https") h p (by decide) (by decide)
        hh hh2 hh3 hp hp2 hp3]
      rw [if_neg (by decide), if_pos rfl]
  · intro sc h p hsc hsc2 hsch hscs hh hh2 hh3 hp hp2 hp3
    rw [url_parse_no_port_eval sc h p hsc hsc2 hh hh2 hh3 hp hp2 hp3,
      if_neg hsch, if_neg hscs]

/-- C5 counterexample: `"http://h/a:80x"` is a well-formed port-less input
by the claim's conditions (host "h", path "/a:80x"), but the explicit-port
sscanf matches first — `%[^:]` swallows "h/a" as the host, `%u` reads 80,
`%s` takes "x" — so url_parse returns host "h/a", port 80, path "x"
instead of the claimed components. -/
theorem url_parse_counterexample :
    url_parse (strBytes "http://h/a:80x") =
      some { scheme := strBytes "http", host := strBytes "h/a", port := 80, path := strBytes "x" } ∧
    ¬ url_parse (strBytes "http://h/a:80x") =
      some { scheme := strBytes "http", host := strBytes "h", port := 80, path := strBytes "/a:80x" } := by
  exact ⟨by decide, by decide⟩

/-- C5 witness: concrete inputs for each arm. -/
theorem url_parse_spec_witness :
    url_parse (strBytes "web" ++ strBytes "://" ++ strBytes "host" ++
        strBytes ":" ++ strBytes "8080" ++ strBytes "/path") =
      some (URL.mk (strBytes "web") (strBytes "host")
        (natOfDigits (strBytes "8080")) (strBytes "/path")) ∧
    url_parse (strBytes "http" ++ strBytes "://" ++ strBytes "host" ++ strBytes "/path") =
      some (URL.mk (strBytes "http") (strBytes "host") 80 (strBytes "/path")) ∧
    url_parse (strBytes "gopher" ++ strBytes "://" ++ strBytes "h" ++ strBytes "/x") = none ∧
    url_parse (strBytes "nocolonhere") = none ∧
    url_parse (strBytes "http" ++ strBytes "://" ++ strBytes "host") = none :=
  ⟨url_parse_spec.1 (strBytes "web") (strBytes "host") (strBytes "8080")
      (strBytes "/path") (by decide) (by decide) (by decide) (by decide) (by decide)
      (by decide) (by decide) (by decide) (by decide)
      ⟨strBytes "path", by decide⟩ (by decide),
   (url_parse_spec.2.1 (strBytes "host") (strBytes "/path") (by decide) (by decide)
      (by decide) (by decide) ⟨strBytes "path", by decide⟩ (by decide) (by decide)).1,
   url_parse_spec.2.2.1 (strBytes "gopher") (strBytes "h") (strBytes "/x")
      (by decide) (by decide) (by decide) (by decide) (by decide) (by decide)
      (by decide) ⟨strBytes "x", by decide⟩ (by decide) (by decide),
   url_parse_spec.2.2.2.1 (strBytes "nocolonhere") (by decide),
   url_parse_spec.2.2.2.2 (strBytes "http") (strBytes "host") (by decide)
      (by decide) (by decide) (by decide) (by decide)⟩

theorem dropWhile_head_false {p : Nat → Bool} :
    ∀ (l : List Nat) (a : Nat) (t : List Nat), l.dropWhile p = a :: t →
    p a = false := by
  intro l
  induction l with
  | nil => intro a t h; exact absurd h (by simp)
  | cons x xs ih =>
      intro a t h
      rw [List.dropWhile_cons] at h
      split_ifs at h with hx
      · exact ih a t h
      · cases h
        exact Bool.not_eq_true _ ▸ (by simpa using hx)

theorem drop_takeWhile_length {p : Nat → Bool} :
    ∀ l : List Nat, l.drop (l.takeWhile p).length = l.dropWhile p := by
  intro l
  induction l with
  | nil => rfl
  | cons a t ih =>
      by_cases hp : p a <;>
        simp [List.takeWhile_cons, List.dropWhile_cons, hp, ih]

theorem scanNotChar_rest (k : Nat) (s u v : List Nat)
    (h : scanNotChar k s = some (u, v)) : v = [] ∨ v.head? = some k := by
  unfold scanNotChar at h
  dsimp only at h
  split_ifs at h with ht
  cases h
  rw [drop_takeWhile_length]
  cases hv : s.dropWhile (fun c => c != k) with
  | nil => exact Or.inl rfl
  | cons a t =>
      have hak : a = k := by simpa using dropWhile_head_false s a t hv
      exact Or.inr (by rw [hak]; rfl)

theorem scanS_head_slash (v tok r : List Nat)
    (h : scanS (47 :: v) = some (tok, r)) : tok.head? = some 47 := by
  unfold scanS at h
  dsimp only at h
  rw [dropWhile_cons_false 47 v (by decide)] at h
  rw [List.takeWhile_cons_of_pos (by decide)] at h
  rw [if_neg (by simp)] at h
  cases h
  rfl

theorem sscanf_no_port_path_head (s sc h0 p0 : List Nat) (pos : Nat)
    (heq : sscanf_url_no_port s = some (sc, h0, p0, pos)) :
    p0.head? = some 47 := by
  unfold sscanf_url_no_port at heq
  rcases e1 : scanNotChar 58 s with _ | ⟨sch, r1⟩ <;>
    rw [e1] at heq <;> dsimp only at heq
  · exact absurd heq (by simp)
  rcases e2 : scanLit 58 r1 with _ | r2 <;>
    rw [e2] at heq <;> dsimp only at heq
  · exact absurd heq (by simp)
  rcases e3 : scanLit 47 r2 with _ | r3 <;>
    rw [e3] at heq <;> dsimp only at heq
  · exact absurd heq (by simp)
  rcases e4 : scanLit 47 r3 with _ | r4 <;>
    rw [e4] at heq <;> dsimp only at heq
  · exact absurd heq (by simp)
  rcases e5 : scanNotChar 47 r4 with _ | ⟨hst, r5⟩ <;>
    rw [e5] at heq <;> dsimp only at heq
  · exact absurd heq (by simp)
  rcases e6 : scanS r5 with _ | ⟨path, r6⟩ <;>
    rw [e6] at heq <;> dsimp only at heq
  · exact absurd heq (by simp)
  simp only [Option.some_inj, Prod.mk.injEq] at heq
  obtain ⟨_, _, hpath, _⟩ := heq
  rcases scanNotChar_rest 47 r4 hst r5 e5 with rfl | hhead
  · exact absurd e6 (by simp [scanS_nil])
  · match r5, hhead with
    | 47 :: v, _ =>
        rw [← hpath]
        exact scanS_head_slash v path r6 e6

/-- C6 counterexample: url_parse accepts `"ftp://h:21/x"` through the
explicit-port scan, producing a record whose scheme is neither "http" nor
"https" — and `"http://h:80x"`-style inputs similarly produce paths not
beginning with '/'; the claimed invariant only holds for records produced
by the port-omitted rule. -/
theorem url_invariant_counterexample :
    url_parse (strBytes "ftp://h:21/x") =
      some { scheme := strBytes "ftp", host := strBytes "h", port := 21, path := strBytes "/x" } ∧
    ¬ (strBytes "ftp" = strBytes "http" ∨ strBytes "ftp" = strBytes "https") := by
  exact ⟨by decide, by decide⟩

/-- C6 (amended): every non-null URL record produced when the
explicit-port sscanf fails (the port-omitted rule) satisfies the
invariant: its scheme is exactly "http" or "https", its port is the
default 80 or 443 respectively, and its path begins with '/'.  Records
produced by the explicit-port scan may carry any colon-free scheme and a
path not beginning with '/'. -/
theorem url_parse_default_port_invariant (s : List Nat) (u : URL)
    (hu : url_parse s = some u) (hfail : sscanf_url_with_port s = none) :
    ((u.scheme = strBytes "http" ∧ u.port = 80) ∨
      (u.scheme = strBytes "https" ∧ u.port = 443)) ∧
    u.path.head? = some 47 := by
  unfold url_parse at hu
  rw [hfail] at hu
  dsimp only at hu
  rcases e2 : sscanf_url_no_port s with _ | ⟨sc, h0, p0, pos⟩ <;>
    rw [e2] at hu <;> dsimp only at hu
  · exact absurd hu (by simp)
  · have hhead := sscanf_no_port_path_head s sc h0 p0 pos e2
    by_cases h1 : s.length < pos
    · rw [if_pos h1] at hu
      exact absurd hu (by simp)
    · rw [if_neg h1] at hu
      by_cases h2 : sc = strBytes "http"
      · rw [if_pos h2] at hu
        cases hu
        exact ⟨Or.inl ⟨h2, rfl⟩, hhead⟩
      · rw [if_neg h2] at hu
        by_cases h3 : sc = strBytes "https"
        · rw [if_pos h3] at hu
          cases hu
          exact ⟨Or.inr ⟨h3, rfl⟩, hhead⟩
        · rw [if_neg h3] at hu
          exact absurd hu (by simp)

/-- C6 witness: the port-omitted rule at a concrete input. -/
theorem url_parse_default_port_invariant_witness :
    ((URL.mk (strBytes "https") (strBytes "h") 443 (strBytes "/x")).scheme =
        strBytes "http" ∧
      (URL.mk (strBytes "https") (strBytes "h") 443 (strBytes "/x")).port = 80) ∨
    ((URL.mk (strBytes "https") (strBytes "h") 443 (strBytes "/x")).scheme =
        strBytes "https" ∧
      (URL.mk (strBytes "https") (strBytes "h") 443 (strBytes "/x")).port = 443) :=
  (url_parse_default_port_invariant (strBytes "https://h/x")
    (URL.mk (strBytes "https") (strBytes "h") 443 (strBytes "/x"))
    (by decide) (by decide)).1
